import Mathlib

/-
Verification of the triangle-discovery engine: a shallow embedding of
src/api_client.py, src/triangle_finder.py and src/triangle_db.py.

Modelling conventions.
* Python strings are Lean String, integer relation-type codes are Nat.
* Weights are Python floats, but no modelled code path performs arithmetic
  or comparisons on them (the min-weight comparison is commented out in the
  source), so they are embedded as Int and only copied around.
* The network is an oracle: find_triangles sees the (memoized) API client as
  two pure functions relFrom / relTo, matching the fact that the client
  returns the same cached list on every call for a word within a run.  The
  cache/fetch behaviour itself is modelled separately (ClientState and
  get_relations_from / get_relations_to) with an explicit fetch counter.
* The SQLite dedup store is a Store value: an association list for the
  per-node status rows (INSERT OR REPLACE) plus the list of saved triangle
  rows (INSERT OR IGNORE keyed on the 6-field identity).
* Python exceptions are explicit: operations of the store may be flagged as
  raising via Env; the blanket try/except of find_triangles is modelled by
  the LoopRes.exn constructor, and an exception that escapes find_triangles
  is FTRes.raises.
* Python set iteration order is not specified; sets built by the finder are
  modelled as first-occurrence deduplicated lists (dedup).  None of the
  proved properties depend on the chosen order.
-/

/-- EXCLUDED_RELATION_TYPES from api_client.py: relation type codes filtered
out before any matching. -/
def EXCLUDED_RELATION_TYPES : List Nat :=
  [0, 666, 777, 4, 1, 2, 200, 1000, 1001, 1002, 2001]

/-- A processed relation as built by the API client: source and target node
names, the numeric relation type code and the edge weight. -/
structure RelEdge where
  source : String
  target : String
  rtype : Nat
  weight : Int
  deriving DecidableEq, Repr

/-- A raw relation record of the remote payload: endpoint node ids, a type
code and a weight (fields node1, node2, type, w). -/
structure RawRel where
  node1 : Nat
  node2 : Nat
  rtype : Nat
  w : Int
  deriving DecidableEq, Repr

/-- A raw node record of the remote payload (fields id, name). -/
structure RawNode where
  id : Nat
  name : String
  deriving DecidableEq, Repr

/-- A relations-endpoint response: either a payload with relations and nodes
keys, or anything else (non-dict JSON or missing keys), which the client
treats as an empty result. -/
inductive RawResp where
  | malformed
  | ok (relations : List RawRel) (nodes : List RawNode)
  deriving DecidableEq, Repr

/-- filter_relations from api_client.py: drop relations whose type code is in
the exclusion set. -/
def filter_relations (relations : List RawRel) : List RawRel :=
  relations.filter (fun rel => !(EXCLUDED_RELATION_TYPES.contains rel.rtype))

/-- Endpoint resolution: the node map built from the payload node list (a
Python dict comprehension, so a later entry with the same id wins), with
get_node_info as fallback; the fallback is abstracted as a function that
returns none when the node cannot be fetched. -/
def resolveNode (nodes : List RawNode) (nodeInfo : Nat → Option RawNode)
    (i : Nat) : Option RawNode :=
  match nodes.reverse.find? (fun n => n.id == i) with
  | some n => some n
  | none => nodeInfo i

/-- The relation-processing loop shared by get_relations_from and
get_relations_to: resolve both endpoints of each raw relation, silently
dropping a relation when either endpoint cannot be resolved. -/
def processRelations (nodes : List RawNode) (nodeInfo : Nat → Option RawNode) :
    List RawRel → List RelEdge
  | [] => []
  | rel :: rest =>
    match resolveNode nodes nodeInfo rel.node1 with
    | none => processRelations nodes nodeInfo rest
    | some sn =>
      match resolveNode nodes nodeInfo rel.node2 with
      | none => processRelations nodes nodeInfo rest
      | some tn =>
        { source := sn.name, target := tn.name, rtype := rel.rtype,
          weight := rel.w } :: processRelations nodes nodeInfo rest

/-- The pure core of get_relations_from / get_relations_to applied to one
response: a malformed payload yields the empty list; otherwise the relations
are filtered by type and their endpoints resolved. -/
def relations_of_response (nodeInfo : Nat → Option RawNode) :
    RawResp → List RelEdge
  | .malformed => []
  | .ok relations nodes =>
      processRelations nodes nodeInfo (filter_relations relations)

/-- A triangle record as built at triangle_finder.py lines 94-104. -/
structure Triangle where
  A : String
  B : String
  C : String
  a_to_b : Nat
  c_to_b : Nat
  a_to_c : Nat
  a_to_b_weight : Int
  c_to_b_weight : Int
  a_to_c_weight : Int
  deriving DecidableEq, Repr

/-- The triangle constructed from seed name, target, closing node and the
three matched relations (rel1 = A to B, rel2 = C to B, rel3 = A to C). -/
def mkTriangle (nodeName targetB sourceC : String) (rel1 rel2 rel3 : RelEdge) :
    Triangle :=
  { A := nodeName, B := targetB, C := sourceC,
    a_to_b := rel1.rtype, c_to_b := rel2.rtype, a_to_c := rel3.rtype,
    a_to_b_weight := rel1.weight, c_to_b_weight := rel2.weight,
    a_to_c_weight := rel3.weight }

/-- Status column of the processed_nodes table of triangle_db.py. -/
inductive NodeStatus where
  | completed
  | inProgress
  deriving DecidableEq, Repr

/-- The dedup store contents: the processed_nodes rows (node name with
status, primary key on the name) and the saved triangle rows. -/
structure Store where
  status : List (String × NodeStatus)
  saved : List Triangle
  deriving DecidableEq, Repr

/-- INSERT OR REPLACE of a processed_nodes row. -/
def setStatus (s : Store) (name : String) (st : NodeStatus) : Store :=
  { s with status := (name, st) :: s.status.filter (fun p => p.1 != name) }

/-- Read the status of a node from the store. -/
def getStatus (s : Store) (name : String) : Option NodeStatus :=
  (s.status.find? (fun p => p.1 == name)).map (fun p => p.2)

/-- is_node_processed from triangle_db.py: a node counts as processed only
with status completed. -/
def is_node_processed (s : Store) (name : String) : Bool :=
  getStatus s name == some NodeStatus.completed

/-- mark_node_in_progress from triangle_db.py. -/
def mark_node_in_progress (s : Store) (name : String) : Store :=
  setStatus s name NodeStatus.inProgress

/-- mark_node_processed from triangle_db.py. -/
def mark_node_processed (s : Store) (name : String) : Store :=
  setStatus s name NodeStatus.completed

/-- The 6-field identity of the UNIQUE constraint of the triangles table. -/
def sameIdentity (t u : Triangle) : Bool :=
  t.A == u.A && t.B == u.B && t.C == u.C &&
  t.a_to_b == u.a_to_b && t.c_to_b == u.c_to_b && t.a_to_c == u.a_to_c

/-- save_triangle from triangle_db.py: INSERT OR IGNORE keyed on the 6-field
identity; returns whether a row was inserted. -/
def save_triangle (s : Store) (t : Triangle) : Store × Bool :=
  if s.saved.any (fun u => sameIdentity u t) then (s, false)
  else ({ s with saved := s.saved ++ [t] }, true)

/-- First-occurrence deduplication, standing in for building a Python set
and iterating it. -/
def dedup : List String → List String
  | [] => []
  | x :: xs => x :: (dedup xs).filter (fun y => y != x)

/-- The mutable state threaded through the matching loops of find_triangles:
the global triangle list, the per-node counter triangles_for_node, the
relation_stats histogram and the dedup store. -/
structure BState where
  triangles : List Triangle
  tfn : Nat
  stats : List (Nat × Nat)
  store : Store
  deriving DecidableEq, Repr

/-- Outcome of a matching loop: fell through normally, returned early at the
per-node cap, or raised an exception (to be caught by the blanket handler).
The state records the mutations performed before exiting. -/
inductive LoopRes where
  | ok (st : BState)
  | early (st : BState)
  | exn (st : BState)
  deriving DecidableEq, Repr

/-- The state carried by a loop outcome. -/
def LoopRes.state : LoopRes → BState
  | .ok st => st
  | .early st => st
  | .exn st => st

/-- Whether a loop outcome is a normal fall-through. -/
def LoopRes.isOk : LoopRes → Bool
  | .ok _ => true
  | _ => false

/-- defaultdict(int) increment of the relation_stats histogram. -/
def bump (stats : List (Nat × Nat)) (k : Nat) : List (Nat × Nat) :=
  match stats.find? (fun p => p.1 == k) with
  | some p => (k, p.2 + 1) :: stats.filter (fun q => q.1 != k)
  | none => (k, 1) :: stats

/-- The per-node cap test of lines 61 and 78: only performed when a cap is
configured. -/
def capReached (cap : Option Nat) (tfn : Nat) : Bool :=
  match cap with
  | some k => decide (k ≤ tfn)
  | none => false

/-- The innermost loop of find_triangles (lines 83-114): scan the whole
outgoing list for relations targeting sourceC; each hit re-finds the first
relation to targetB (rel1) and the first incoming relation from sourceC
(rel2), appends a triangle, saves it when a store is attached (a raising
save becomes an exception caught further up), then increments the counter
and the histogram.  A failing next() would also raise; both endpoints always
exist in the contexts in which the loop is entered. -/
def matchRel3 (hasDb : Bool) (saveRaises : Triangle → Bool)
    (nodeName targetB sourceC : String)
    (relationsFrom relationsToB : List RelEdge) :
    List RelEdge → BState → LoopRes
  | [], st => .ok st
  | rel3 :: rest, st =>
    if rel3.target == sourceC then
      match relationsFrom.find? (fun r => r.target == targetB) with
      | none => .exn st
      | some rel1 =>
        match relationsToB.find? (fun r => r.source == sourceC) with
        | none => .exn st
        | some rel2 =>
          let t := mkTriangle nodeName targetB sourceC rel1 rel2 rel3
          let st1 : BState := { st with triangles := st.triangles ++ [t] }
          if hasDb && saveRaises t then .exn st1
          else
            let st2 : BState :=
              if hasDb then { st1 with store := (save_triangle st1.store t).1 }
              else st1
            matchRel3 hasDb saveRaises nodeName targetB sourceC
              relationsFrom relationsToB rest
              { st2 with tfn := st2.tfn + 1, stats := bump st2.stats rel1.rtype }
    else
      matchRel3 hasDb saveRaises nodeName targetB sourceC
        relationsFrom relationsToB rest st

/-- The loop over candidate closing nodes (lines 76-114), with the cap test
of line 78 before each candidate. -/
def sourcesLoop (hasDb : Bool) (saveRaises : Triangle → Bool)
    (cap : Option Nat) (nodeName targetB : String)
    (relationsFrom relationsToB : List RelEdge) :
    List String → BState → LoopRes
  | [], st => .ok st
  | c :: cs, st =>
    if capReached cap st.tfn then .early st
    else
      match matchRel3 hasDb saveRaises nodeName targetB c
          relationsFrom relationsToB relationsFrom st with
      | .ok st1 =>
          sourcesLoop hasDb saveRaises cap nodeName targetB
            relationsFrom relationsToB cs st1
      | r => r

/-- The loop over candidate target nodes (lines 59-114), with the cap test
of line 61 before each target; an empty incoming list skips the target. -/
def targetsLoop (relTo : String → List RelEdge) (hasDb : Bool)
    (saveRaises : Triangle → Bool) (cap : Option Nat)
    (nodeName : String) (relationsFrom : List RelEdge) :
    List String → BState → LoopRes
  | [], st => .ok st
  | b :: bs, st =>
    if capReached cap st.tfn then .early st
    else
      if (relTo b).isEmpty then
        targetsLoop relTo hasDb saveRaises cap nodeName relationsFrom bs st
      else
        match sourcesLoop hasDb saveRaises cap nodeName b relationsFrom
            (relTo b)
            (dedup (((relTo b).filter
              (fun r => r.source != nodeName)).map (fun r => r.source))) st with
        | .ok st1 =>
            targetsLoop relTo hasDb saveRaises cap nodeName relationsFrom bs st1
        | r => r

/-- The environment of one finder run: the memoized relation accessors, the
presence of a dedup store, the per-node cap, the configured (and unused on
the matching path) minimum weight, and which store operations raise. -/
structure Env where
  relFrom : String → List RelEdge
  relTo : String → List RelEdge
  hasDb : Bool
  cap : Option Nat
  minWeight : Int
  saveRaises : Triangle → Bool
  inProgressRaises : String → Bool
  processedRaises : String → Bool

/-- The mutable fields of a TriangleFinder instance. -/
structure FinderState where
  triangles : List Triangle
  processedNodes : List String
  relationStats : List (Nat × Nat)
  store : Store
  deriving DecidableEq, Repr

/-- The argument of find_triangles: Python passes an arbitrary value; only a
dict is processed, and only when its name entry is present and truthy. -/
inductive PyVal where
  | nonDict
  | dict (name : Option String)
  deriving DecidableEq, Repr

/-- Result of one find_triangles call: either an exception escapes to the
caller, or a list is returned together with the updated finder state. -/
inductive FTRes where
  | raises
  | returns (val : List Triangle) (st : FinderState)
  deriving DecidableEq, Repr

/-- Returned list of a finder call, when one was returned. -/
def FTRes.retVal : FTRes → Option (List Triangle)
  | .raises => none
  | .returns v _ => some v

/-- Finder state after a call, when no exception escaped. -/
def FTRes.retSt : FTRes → Option FinderState
  | .raises => none
  | .returns _ st => some st

/-- State mutations performed when a node enters processing: the run-local
visited set gains the name, and with a store attached the node is marked
in progress. -/
def markStart (hasDb : Bool) (st : FinderState) (nm : String) : FinderState :=
  if hasDb then
    { st with
      processedNodes := nm :: st.processedNodes,
      store := mark_node_in_progress st.store nm }
  else { st with processedNodes := nm :: st.processedNodes }

/-- Copy the loop state back into the finder state. -/
def restoreState (st : FinderState) (b : BState) : FinderState :=
  { st with
    triangles := b.triangles,
    relationStats := b.stats,
    store := b.store }

/-- State mutation of the normal-completion epilogue (line 120-121): with a
store attached the node is marked completed. -/
def finishState (hasDb : Bool) (st : FinderState) (nm : String) : FinderState :=
  if hasDb then { st with store := mark_node_processed st.store nm }
  else st

/-- The body of find_triangles over the fields of the environment that it
actually reads (the configured minimum weight is not among them). -/
def ftCore (relFrom relTo : String → List RelEdge) (hasDb : Bool)
    (cap : Option Nat) (saveRaises : Triangle → Bool)
    (inProgressRaises processedRaises : String → Bool)
    (st : FinderState) (startNode : PyVal) : FTRes :=
  match startNode with
  | .nonDict => .returns [] st
  | .dict none => .returns [] st
  | .dict (some nm) =>
    if nm = "" then .returns [] st
    else if hasDb && is_node_processed st.store nm then .returns [] st
    else if nm ∈ st.processedNodes then .returns [] st
    else if hasDb && inProgressRaises nm then .raises
    else if (relFrom nm).isEmpty then .returns [] (markStart hasDb st nm)
    else
      match targetsLoop relTo hasDb saveRaises cap nm
          (relFrom nm)
          (dedup ((relFrom nm).map (fun r => r.target)))
          ⟨(markStart hasDb st nm).triangles, 0,
            (markStart hasDb st nm).relationStats,
            (markStart hasDb st nm).store⟩ with
      | .exn b => .returns [] (restoreState (markStart hasDb st nm) b)
      | .early b => .returns b.triangles (restoreState (markStart hasDb st nm) b)
      | .ok b =>
        if hasDb && processedRaises nm then .raises
        else
          .returns b.triangles
            (finishState hasDb (restoreState (markStart hasDb st nm) b) nm)

/-- find_triangles from triangle_finder.py (lines 21-122).  Guard clauses
return the empty list; a raising mark_node_in_progress or
mark_node_processed escapes (both sit outside the try block); everything
inside the try block that raises, including a raising save_triangle, is
caught by the blanket handler and turned into an empty-list return; the cap
early-exit and the normal fall-through return the global triangle list. -/
def find_triangles (env : Env) (st : FinderState) (startNode : PyVal) : FTRes :=
  ftCore env.relFrom env.relTo env.hasDb env.cap env.saveRaises
    env.inProgressRaises env.processedRaises st startNode

/-- The seed iteration of find_all_triangles; an exception escaping a
per-seed call aborts the whole run. -/
def runAll (env : Env) : List PyVal → FinderState → Option FinderState
  | [], st => some st
  | n :: ns, st =>
    match find_triangles env st n with
    | .raises => none
    | .returns _ st1 => runAll env ns st1

/-- find_all_triangles from triangle_finder.py (lines 124-144): an empty
seed list short-circuits; otherwise every seed is processed in order and the
cumulative triangle list is returned. -/
def find_all_triangles (env : Env) (nodes : List PyVal) (st : FinderState) :
    Option (List Triangle × FinderState) :=
  if nodes.isEmpty then some ([], st)
  else
    match runAll env nodes st with
    | none => none
    | some st1 => some (st1.triangles, st1)

/-- Outcome of one underlying network call of the relations endpoints: a
request exception (after the transport-level retries are exhausted) or a
response payload. -/
inductive FetchOutcome where
  | exc
  | resp (r : RawResp)
  deriving DecidableEq, Repr

/-- The memo state of a JDMAPIClient instance: the outgoing and incoming
relation caches and a counter of underlying relations-endpoint fetches.
The node caches of get_node_info are abstracted into the nodeInfo oracle. -/
structure ClientState where
  relations_cache : List (String × List RelEdge)
  reverse_relations_cache : List (String × List RelEdge)
  fetchCount : Nat
  deriving DecidableEq, Repr

/-- Lookup of a per-word memo entry (the membership test on the defaultdict
does not create entries). -/
def lookupCache (c : List (String × List RelEdge)) (w : String) :
    Option (List RelEdge) :=
  (c.find? (fun p => p.1 == w)).map (fun p => p.2)

/-- get_relations_from from api_client.py (lines 233-290): serve from the
cache when present; otherwise fetch (the oracle net is indexed by the fetch
counter).  A request exception and a malformed payload both return the empty
list WITHOUT populating the cache; a well-formed response is filtered,
endpoint-resolved and memoized (also when the processed list is empty). -/
def get_relations_from (nodeInfo : Nat → Option RawNode)
    (net : Nat → FetchOutcome) (cs : ClientState) (word : String) :
    List RelEdge × ClientState :=
  match lookupCache cs.relations_cache word with
  | some rels => (rels, cs)
  | none =>
    match net cs.fetchCount with
    | .exc => ([], { cs with fetchCount := cs.fetchCount + 1 })
    | .resp .malformed => ([], { cs with fetchCount := cs.fetchCount + 1 })
    | .resp (.ok relations nodes) =>
      (relations_of_response nodeInfo (.ok relations nodes),
        { cs with
          relations_cache :=
            (word, relations_of_response nodeInfo (.ok relations nodes))
              :: cs.relations_cache,
          fetchCount := cs.fetchCount + 1 })

/-- get_relations_to from api_client.py (lines 292-349): identical to
get_relations_from except for the endpoint and the reverse cache. -/
def get_relations_to (nodeInfo : Nat → Option RawNode)
    (net : Nat → FetchOutcome) (cs : ClientState) (word : String) :
    List RelEdge × ClientState :=
  match lookupCache cs.reverse_relations_cache word with
  | some rels => (rels, cs)
  | none =>
    match net cs.fetchCount with
    | .exc => ([], { cs with fetchCount := cs.fetchCount + 1 })
    | .resp .malformed => ([], { cs with fetchCount := cs.fetchCount + 1 })
    | .resp (.ok relations nodes) =>
      (relations_of_response nodeInfo (.ok relations nodes),
        { cs with
          reverse_relations_cache :=
            (word, relations_of_response nodeInfo (.ok relations nodes))
              :: cs.reverse_relations_cache,
          fetchCount := cs.fetchCount + 1 })

/-- Result of get_node_by_name for one word, as observed by get_all_nodes: a
request exception, a non-dict JSON value, or a node record whose id and name
entries may each be absent. -/
inductive NodeFetch where
  | exc
  | nonDict
  | ok (id : Option Nat) (name : Option String)
  deriving DecidableEq, Repr

/-- A seed node record as collected by get_all_nodes. -/
structure GNode where
  id : Option Nat
  name : Option String
  deriving DecidableEq, Repr

/-- The test name.startswith of the source, specialized to the prefix en:.
Python strings are sequences of code points, so the test is whether the
first three characters are e, n and the colon. -/
def startsWithEn (s : String) : Bool :=
  s.data.take 3 == ['e', 'n', ':']

/-- The fixed analyst-chosen vocabulary of get_all_nodes (the uncommented
sample_words list). -/
def sample_words : List String :=
  ["mot", "sac", "feuille", "ville", "chaine", "chaise", "arbre", "fleur",
    "fruit", "lait", "pain", "fromage", "viande", "poisson"]

/-- The word loop of get_all_nodes (lines 377-391): a failing fetch is
skipped; a fetched dict is kept only when its name (defaulting to the empty
string) does not start with the prefix en:; everything else is ignored. -/
def collectNodes (fetch : String → NodeFetch) : List String → List GNode
  | [] => []
  | w :: ws =>
    match fetch w with
    | .exc => collectNodes fetch ws
    | .nonDict => collectNodes fetch ws
    | .ok i n =>
      if startsWithEn (n.getD "") then collectNodes fetch ws
      else ⟨i, n⟩ :: collectNodes fetch ws

/-- get_all_nodes from api_client.py (lines 365-394), with the node-cache
population omitted (it feeds only get_node_info, which is abstracted). -/
def get_all_nodes (fetch : String → NodeFetch) : List GNode :=
  collectNodes fetch sample_words

/-- A finder state with nothing processed and an empty store. -/
def emptyState : FinderState := ⟨[], [], [], ⟨[], []⟩⟩

/-- An environment built directly from two relation accessors, with no
raising store operations and a zero weight floor. -/
def pureEnv (rf rt : String → List RelEdge) (hasDb : Bool) (cap : Option Nat)
    (sr : Triangle → Bool) : Env :=
  ⟨rf, rt, hasDb, cap, 0, sr, fun _ => false, fun _ => false⟩

/-- An environment whose relation accessors are the client pipeline applied
to per-word raw responses, as in a real run (fetch, type filter, endpoint
resolution). -/
def clientEnv (nodeInfo : Nat → Option RawNode) (respF respT : String → RawResp)
    (hasDb : Bool) (cap : Option Nat) (sr : Triangle → Bool) : Env :=
  ⟨fun w => relations_of_response nodeInfo (respF w),
    fun w => relations_of_response nodeInfo (respT w),
    hasDb, cap, 0, sr, fun _ => false, fun _ => false⟩

/-- Outgoing relations of the shared-target scenario: two outgoing relations
of the seed a both target c. -/
def rfShared : String → List RelEdge := fun w =>
  if w = "a" then [⟨"a", "b", 6, 1⟩, ⟨"a", "c", 5, 1⟩, ⟨"a", "c", 7, 1⟩] else []

/-- Incoming relations of the shared-target scenario: b is reached from c. -/
def rtShared : String → List RelEdge := fun w =>
  if w = "b" then [⟨"c", "b", 6, 1⟩] else []

/-- The shared-target environment with a per-node cap of one triangle. -/
def envCap1 : Env := pureEnv rfShared rtShared false (some 1) (fun _ => false)

/-- The shared-target environment without a cap. -/
def envNoCap : Env := pureEnv rfShared rtShared false none (fun _ => false)

/-- First triangle found in the shared-target scenario. -/
def triShared1 : Triangle := ⟨"a", "b", "c", 6, 6, 5, 1, 1, 1⟩

/-- Second triangle found in the shared-target scenario: same node triple,
other A-to-C relation. -/
def triShared2 : Triangle := ⟨"a", "b", "c", 6, 6, 7, 1, 1, 1⟩

/-- Finder state after running the shared-target scenario. -/
def stShared : FinderState :=
  ⟨[triShared1, triShared2], ["a"], [(6, 2)], ⟨[], []⟩⟩

/-- Outgoing relations of the self-loop scenario: the seed a has a relation
to itself and one to c. -/
def rfLoop : String → List RelEdge := fun w =>
  if w = "a" then [⟨"a", "a", 6, 1⟩, ⟨"a", "c", 5, 1⟩] else []

/-- Incoming relations of the self-loop scenario: a is reached from c. -/
def rtLoop : String → List RelEdge := fun w =>
  if w = "a" then [⟨"c", "a", 6, 1⟩] else []

/-- The self-loop environment. -/
def envLoop : Env := pureEnv rfLoop rtLoop false none (fun _ => false)

/-- The degenerate triangle found in the self-loop scenario: its A and B are
the same node. -/
def triLoop : Triangle := ⟨"a", "a", "c", 6, 6, 5, 1, 1, 1⟩

/-- Finder state after running the self-loop scenario. -/
def stLoop : FinderState := ⟨[triLoop], ["a"], [(6, 1)], ⟨[], []⟩⟩

/-- An environment with an attached store in which every relation fetch is
empty. -/
def envEmptyRels : Env :=
  pureEnv (fun _ => []) (fun _ => []) true none (fun _ => false)

/-- Outgoing relations of the failing-save scenario. -/
def rfSave : String → List RelEdge := fun w =>
  if w = "a" then [⟨"a", "b", 6, 1⟩, ⟨"a", "c", 5, 1⟩] else []

/-- Incoming relations of the failing-save scenario. -/
def rtSave : String → List RelEdge := fun w =>
  if w = "b" then [⟨"c", "b", 6, 1⟩] else []

/-- An environment with an attached store whose save_triangle always raises
(an unwritable database). -/
def envSaveFails : Env := pureEnv rfSave rtSave true none (fun _ => true)

/-- The triangle appended just before the failing save. -/
def triSave : Triangle := ⟨"a", "b", "c", 6, 6, 5, 1, 1, 1⟩

/-- A fresh client state: empty caches, no fetches yet. -/
def freshClient : ClientState := ⟨[], [], 0⟩

/-- A network that always answers with a malformed payload. -/
def netMalformed : Nat → FetchOutcome := fun _ => .resp .malformed

/-- A network that always answers with one well-formed payload. -/
def netOkOnce : Nat → FetchOutcome := fun _ =>
  .resp (.ok [⟨1, 2, 6, 5⟩] [⟨1, "mot"⟩, ⟨2, "animal"⟩])

/-- A node-info oracle that always fails. -/
def niNone : Nat → Option RawNode := fun _ => none

/-- Raw outgoing responses for a full client-pipeline run from seed a. -/
def respFClient : String → RawResp := fun w =>
  if w = "a" then
    .ok [⟨1, 2, 6, 1⟩, ⟨1, 3, 5, 1⟩, ⟨1, 3, 1001, 9⟩]
      [⟨1, "a"⟩, ⟨2, "b"⟩, ⟨3, "c"⟩]
  else .malformed

/-- Raw incoming responses for a full client-pipeline run from seed a. -/
def respTClient : String → RawResp := fun w =>
  if w = "b" then .ok [⟨3, 2, 6, 1⟩] [⟨2, "b"⟩, ⟨3, "c"⟩] else .malformed

/-- The client-pipeline environment over those responses, store attached. -/
def envClient : Env :=
  clientEnv niNone respFClient respTClient true none (fun _ => false)

/-- A seed fetcher where mot resolves normally and sac resolves to an
en:-prefixed node; every other word fails. -/
def fetchMixed : String → NodeFetch := fun w =>
  if w = "mot" then .ok (some 1) (some "mot")
  else if w = "sac" then .ok (some 2) (some "en:bag")
  else .exc

/-- An environment without relations, used with a pre-populated triangle
list. -/
def envBare : Env := pureEnv (fun _ => []) (fun _ => []) false none (fun _ => false)

/-- A triangle found for an earlier seed in the same run. -/
def triPrev : Triangle := ⟨"x", "y", "z", 3, 3, 3, 1, 1, 1⟩

/-- A finder state already holding a triangle from an earlier seed. -/
def stPrev : FinderState := ⟨[triPrev], [], [], ⟨[], []⟩⟩

/-- The triangle found by the client-pipeline run from seed a. -/
def triClient : Triangle := ⟨"a", "b", "c", 6, 6, 5, 1, 1, 1⟩

/-- Finder state after the client-pipeline run from seed a. -/
def stClient : FinderState :=
  ⟨[triClient], ["a"], [(6, 1)],
    ⟨[("a", NodeStatus.completed)], [triClient]⟩⟩

/-- C1 (counterexample): with the per-node cap set to 1, the seed a of the
shared-target scenario contributes two triangles to the returned list,
because the innermost matching loop appends one triangle per outgoing
relation targeting the same closing node without re-testing the cap. -/
theorem cap_exceeded_on_shared_target :
    (find_triangles envCap1 emptyState (PyVal.dict (some "a"))).retVal.map
        List.length = some 2
    ∧ envCap1.cap = some 1 := ⟨rfl, rfl⟩

/-- C3 (counterexample): without a cap, the shared-target scenario produces
two distinct triangles for the single node combination (a, b, c), one per
outgoing relation targeting c, refuting that exactly one triangle is
produced per combination. -/
theorem duplicate_target_yields_two_triangles :
    (find_triangles envNoCap emptyState (PyVal.dict (some "a"))).retVal
      = some [triShared1, triShared2]
    ∧ triShared1.A = triShared2.A ∧ triShared1.B = triShared2.B
    ∧ triShared1.C = triShared2.C ∧ triShared1 ≠ triShared2 :=
  ⟨rfl, rfl, rfl, rfl, by decide⟩

/-- C5 (counterexample): a self-loop relation of the seed makes the seed
itself a candidate target, and the produced triangle has A = B, refuting
pairwise distinctness of the three node names. -/
theorem self_loop_breaks_pairwise_distinct :
    (find_triangles envLoop emptyState (PyVal.dict (some "a"))).retVal
      = some [triLoop] ∧ triLoop.A = triLoop.B := ⟨rfl, rfl⟩

/-- C2 (counterexample): a seed whose outgoing-relations result is empty is
left with status in_progress in the store, not completed, because the
empty-result return skips the mark_node_processed epilogue. -/
theorem empty_outgoing_leaves_in_progress :
    (find_triangles envEmptyRels emptyState (PyVal.dict (some "mot"))).retSt.map
        (fun s => getStatus s.store "mot") = some (some NodeStatus.inProgress)
    ∧ (find_triangles envEmptyRels emptyState (PyVal.dict (some "mot"))).retSt.map
        (fun s => getStatus s.store "mot") ≠ some (some NodeStatus.completed) :=
  ⟨rfl, by decide⟩

/-- C8 (counterexample): with a save_triangle that raises (unwritable
store), find_triangles does not surface the failure: the triangle was
already appended (so the failing save was really attempted), the blanket
handler catches the exception and an empty list is returned normally. -/
theorem save_failure_swallowed :
    find_triangles envSaveFails emptyState (PyVal.dict (some "a")) ≠ FTRes.raises
    ∧ (find_triangles envSaveFails emptyState (PyVal.dict (some "a"))).retVal
        = some []
    ∧ (find_triangles envSaveFails emptyState (PyVal.dict (some "a"))).retSt.map
        (fun s => s.triangles) = some [triSave] :=
  ⟨by decide, rfl, rfl⟩

/-- C6 (counterexample): when the first call hits a malformed payload, the
empty result is not memoized, and a second call for the same word performs a
second underlying fetch, refuting that exactly one fetch happens. -/
theorem malformed_payload_not_memoized :
    (get_relations_from niNone netMalformed
        ((get_relations_from niNone netMalformed freshClient "mot").2)
        "mot").2.fetchCount = 2
    ∧ (get_relations_from niNone netMalformed
        ((get_relations_from niNone netMalformed freshClient "mot").2)
        "mot").2.fetchCount ≠ 1 :=
  ⟨rfl, by decide⟩

/-- C7: the triangle set discovered by find_all_triangles does not depend on
the configured minimum weight: the field is stored but never consulted on
the matching path (the weight comparison is commented out in the source). -/
theorem min_weight_independence (env : Env) (w1 w2 : Int) (nodes : List PyVal)
    (st : FinderState) :
    find_all_triangles { env with minWeight := w1 } nodes st
      = find_all_triangles { env with minWeight := w2 } nodes st := by
  have hrun : ∀ (ns : List PyVal) (s : FinderState),
      runAll { env with minWeight := w1 } ns s
        = runAll { env with minWeight := w2 } ns s := by
    intro ns
    induction ns with
    | nil => intro s; rfl
    | cons n ns ih =>
      intro s
      have hft : find_triangles { env with minWeight := w1 } s n
          = find_triangles { env with minWeight := w2 } s n := rfl
      simp only [runAll, hft]
      cases find_triangles { env with minWeight := w2 } s n with
      | raises => rfl
      | returns v s1 => exact ih s1
  simp only [find_all_triangles, hrun]

/-- Every node collected by the get_all_nodes word loop has a name that does
not start with the en: prefix. -/
theorem collectNodes_no_en (fetch : String → NodeFetch) :
    ∀ (ws : List String) (n : GNode), n ∈ collectNodes fetch ws →
      startsWithEn (n.name.getD "") = false := by
  intro ws
  induction ws with
  | nil => intro n h; simp [collectNodes] at h
  | cons w ws ih =>
    intro n h
    cases hf : fetch w with
    | exc => simp only [collectNodes, hf] at h; exact ih n h
    | nonDict => simp only [collectNodes, hf] at h; exact ih n h
    | ok i nm =>
      simp only [collectNodes, hf] at h
      cases hs : startsWithEn (nm.getD "") with
      | true => rw [if_pos hs] at h; exact ih n h
      | false =>
        rw [if_neg (by simp [hs])] at h
        rcases List.mem_cons.mp h with h1 | h2
        · subst h1; exact hs
        · exact ih n h2

/-- C9: get_all_nodes never returns a seed node whose name starts with the
prefix en:; such fetched nodes are silently excluded from the seed list. -/
theorem en_prefixed_nodes_excluded (fetch : String → NodeFetch) (n : GNode)
    (h : n ∈ get_all_nodes fetch) :
    startsWithEn (n.name.getD "") = false :=
  collectNodes_no_en fetch sample_words n h

/-- Witness for C9: the node fetched for mot is in the seed list of the
mixed fetcher and indeed lacks the prefix (while the en:bag node for sac was
dropped). -/
theorem en_prefixed_nodes_excluded_witness :
    startsWithEn ((GNode.mk (some 1) (some "mot")).name.getD "") = false :=
  en_prefixed_nodes_excluded fetchMixed (GNode.mk (some 1) (some "mot"))
    (by rw [show get_all_nodes fetchMixed = [GNode.mk (some 1) (some "mot")]
          from by decide]
        exact List.mem_singleton.mpr rfl)

/-- C6 (amended): when the underlying fetch for a word answers with a
well-formed payload, the processed list (possibly empty) is memoized: a
second call returns the identical list and the identical client state, and
the pair of calls performed exactly one underlying fetch.  This holds for
both accessors; the counterexample shows it fails when the first call hits a
request error or a malformed payload, which are not cached. -/
theorem memoization_after_successful_fetch
    (nodeInfo : Nat → Option RawNode) (net : Nat → FetchOutcome)
    (cs : ClientState) (w : String) (relations : List RawRel)
    (nodes : List RawNode)
    (hf : lookupCache cs.relations_cache w = none)
    (ht : lookupCache cs.reverse_relations_cache w = none)
    (hn : net cs.fetchCount = FetchOutcome.resp (RawResp.ok relations nodes)) :
    ((get_relations_from nodeInfo net
        ((get_relations_from nodeInfo net cs w).2) w).1
      = (get_relations_from nodeInfo net cs w).1
    ∧ (get_relations_from nodeInfo net
        ((get_relations_from nodeInfo net cs w).2) w).2
      = (get_relations_from nodeInfo net cs w).2
    ∧ (get_relations_from nodeInfo net cs w).2.fetchCount
      = cs.fetchCount + 1)
    ∧ ((get_relations_to nodeInfo net
        ((get_relations_to nodeInfo net cs w).2) w).1
      = (get_relations_to nodeInfo net cs w).1
    ∧ (get_relations_to nodeInfo net
        ((get_relations_to nodeInfo net cs w).2) w).2
      = (get_relations_to nodeInfo net cs w).2
    ∧ (get_relations_to nodeInfo net cs w).2.fetchCount
      = cs.fetchCount + 1) := by
  constructor
  · have h1 : get_relations_from nodeInfo net cs w
        = (relations_of_response nodeInfo (.ok relations nodes),
          { cs with
            relations_cache :=
              (w, relations_of_response nodeInfo (.ok relations nodes))
                :: cs.relations_cache,
            fetchCount := cs.fetchCount + 1 }) := by
      rw [get_relations_from, hf, hn]
    rw [h1]
    have h2 : lookupCache
        ((w, relations_of_response nodeInfo (.ok relations nodes))
          :: cs.relations_cache) w
        = some (relations_of_response nodeInfo (.ok relations nodes)) := by
      simp [lookupCache, List.find?]
    rw [get_relations_from]
    simp only [h2]
    exact ⟨trivial, trivial, trivial⟩
  · have h1 : get_relations_to nodeInfo net cs w
        = (relations_of_response nodeInfo (.ok relations nodes),
          { cs with
            reverse_relations_cache :=
              (w, relations_of_response nodeInfo (.ok relations nodes))
                :: cs.reverse_relations_cache,
            fetchCount := cs.fetchCount + 1 }) := by
      rw [get_relations_to, ht, hn]
    rw [h1]
    have h2 : lookupCache
        ((w, relations_of_response nodeInfo (.ok relations nodes))
          :: cs.reverse_relations_cache) w
        = some (relations_of_response nodeInfo (.ok relations nodes)) := by
      simp [lookupCache, List.find?]
    rw [get_relations_to]
    simp only [h2]
    exact ⟨trivial, trivial, trivial⟩

/-- Witness for C6 (amended): a concrete successful fetch for mot is served
from the memo on the second call with exactly one underlying fetch. -/
theorem memoization_after_successful_fetch_witness :
    (get_relations_from niNone netOkOnce
        ((get_relations_from niNone netOkOnce freshClient "mot").2) "mot").1
      = (get_relations_from niNone netOkOnce freshClient "mot").1
    ∧ (get_relations_from niNone netOkOnce freshClient "mot").2.fetchCount
      = freshClient.fetchCount + 1 :=
  ⟨(memoization_after_successful_fetch niNone netOkOnce freshClient "mot"
      [⟨1, 2, 6, 5⟩] [⟨1, "mot"⟩, ⟨2, "animal"⟩] rfl rfl rfl).1.1,
    (memoization_after_successful_fetch niNone netOkOnce freshClient "mot"
      [⟨1, 2, 6, 5⟩] [⟨1, "mot"⟩, ⟨2, "animal"⟩] rfl rfl rfl).1.2.2⟩

/-- With no store attached and both first matches available, the innermost
matching loop falls through normally, appends one triangle per scanned
relation targeting the closing node (all sharing the first A-to-B and
C-to-B matches), advances the per-node counter by that count, and leaves the
store untouched. -/
theorem matchRel3_noDb (sr : Triangle → Bool) (nodeName targetB sourceC : String)
    (RF RTB : List RelEdge) (r1 r2 : RelEdge)
    (hr1 : RF.find? (fun r => r.target == targetB) = some r1)
    (hr2 : RTB.find? (fun r => r.source == sourceC) = some r2) :
    ∀ (rel3s : List RelEdge) (st : BState),
      (matchRel3 false sr nodeName targetB sourceC RF RTB rel3s st).isOk = true
      ∧ (matchRel3 false sr nodeName targetB sourceC RF RTB rel3s st).state.triangles
        = st.triangles ++ (rel3s.filter (fun r => r.target == sourceC)).map
            (fun r3 => mkTriangle nodeName targetB sourceC r1 r2 r3)
      ∧ (matchRel3 false sr nodeName targetB sourceC RF RTB rel3s st).state.tfn
        = st.tfn + rel3s.countP (fun r => r.target == sourceC)
      ∧ (matchRel3 false sr nodeName targetB sourceC RF RTB rel3s st).state.store
        = st.store := by
  intro rel3s
  induction rel3s with
  | nil =>
    intro st
    exact ⟨rfl, by simp [matchRel3, LoopRes.state],
      by simp [matchRel3, LoopRes.state], rfl⟩
  | cons rel3 rest ih =>
    intro st
    cases hc : (rel3.target == sourceC) with
    | false =>
      have e : matchRel3 false sr nodeName targetB sourceC RF RTB
            (rel3 :: rest) st
          = matchRel3 false sr nodeName targetB sourceC RF RTB rest st := by
        simp [matchRel3, hc]
      rw [e]
      rcases ih st with ⟨h1, h2, h3, h4⟩
      refine ⟨h1, ?_, ?_, h4⟩
      · rw [h2]; simp [List.filter_cons, hc]
      · rw [h3]; simp [List.countP_cons, hc]
    | true =>
      have e : matchRel3 false sr nodeName targetB sourceC RF RTB
            (rel3 :: rest) st
          = matchRel3 false sr nodeName targetB sourceC RF RTB rest
              ⟨st.triangles ++ [mkTriangle nodeName targetB sourceC r1 r2 rel3],
                st.tfn + 1, bump st.stats r1.rtype, st.store⟩ := by
        simp [matchRel3, hc, hr1, hr2]
      rw [e]
      rcases ih ⟨st.triangles
          ++ [mkTriangle nodeName targetB sourceC r1 r2 rel3],
          st.tfn + 1, bump st.stats r1.rtype, st.store⟩ with ⟨h1, h2, h3, h4⟩
      refine ⟨h1, ?_, ?_, h4⟩
      · rw [h2]; simp [List.filter_cons, hc, List.append_assoc]
      · rw [h3]; simp [List.countP_cons, hc]; omega

/-- C3 (amended): in the matching step for a fixed target B and closing node
C, the A-to-B edge always comes from the FIRST relation of the outgoing list
targeting B and the C-to-B edge from the FIRST incoming relation of B with
source C; but one triangle is produced per outgoing relation targeting C
(each supplying that relation as the A-to-C edge), so several outgoing
relations sharing the closing node C yield several triangles for the same
(A, B, C) combination rather than exactly one. -/
theorem first_match_per_edge_one_triangle_per_closing_relation
    (sr : Triangle → Bool) (nodeName targetB sourceC : String)
    (RF RTB : List RelEdge) (r1 r2 : RelEdge) (st : BState)
    (hr1 : RF.find? (fun r => r.target == targetB) = some r1)
    (hr2 : RTB.find? (fun r => r.source == sourceC) = some r2) :
    (matchRel3 false sr nodeName targetB sourceC RF RTB RF st).isOk = true
    ∧ (matchRel3 false sr nodeName targetB sourceC RF RTB RF st).state.triangles
      = st.triangles ++ (RF.filter (fun r => r.target == sourceC)).map
          (fun r3 => mkTriangle nodeName targetB sourceC r1 r2 r3)
    ∧ (matchRel3 false sr nodeName targetB sourceC RF RTB RF st).state.tfn
      = st.tfn + RF.countP (fun r => r.target == sourceC) := by
  rcases matchRel3_noDb sr nodeName targetB sourceC RF RTB r1 r2 hr1 hr2 RF st
    with ⟨h1, h2, h3, _⟩
  exact ⟨h1, h2, h3⟩

/-- Witness for C3 (amended): the shared-target scenario instantiated
concretely; the two produced triangles share the first matches for the
A-to-B and C-to-B edges and differ in the A-to-C edge. -/
theorem first_match_per_edge_one_triangle_per_closing_relation_witness :
    (matchRel3 false (fun _ => false) "a" "b" "c" (rfShared "a") (rtShared "b")
        (rfShared "a") ⟨[], 0, [], ⟨[], []⟩⟩).isOk = true
    ∧ (matchRel3 false (fun _ => false) "a" "b" "c" (rfShared "a") (rtShared "b")
        (rfShared "a") ⟨[], 0, [], ⟨[], []⟩⟩).state.triangles
      = ([] : List Triangle) ++ ((rfShared "a").filter
          (fun r => r.target == "c")).map
          (fun r3 => mkTriangle "a" "b" "c" ⟨"a", "b", 6, 1⟩ ⟨"c", "b", 6, 1⟩ r3)
    ∧ (matchRel3 false (fun _ => false) "a" "b" "c" (rfShared "a") (rtShared "b")
        (rfShared "a") ⟨[], 0, [], ⟨[], []⟩⟩).state.tfn
      = 0 + (rfShared "a").countP (fun r => r.target == "c") :=
  first_match_per_edge_one_triangle_per_closing_relation (fun _ => false)
    "a" "b" "c" (rfShared "a") (rtShared "b") ⟨"a", "b", 6, 1⟩ ⟨"c", "b", 6, 1⟩
    ⟨[], 0, [], ⟨[], []⟩⟩ (by decide) (by decide)

/-- save_triangle never touches the status rows. -/
theorem save_triangle_status (s : Store) (t : Triangle) :
    ((save_triangle s t).1).status = s.status := by
  rw [save_triangle]; split <;> rfl

/-- Every row present after save_triangle was present before or is the saved
triangle itself. -/
theorem save_triangle_saved_sub (s : Store) (t : Triangle) :
    ∀ u ∈ ((save_triangle s t).1).saved, u ∈ s.saved ∨ u = t := by
  intro u hu
  rw [save_triangle] at hu
  split at hu
  · exact Or.inl hu
  · rcases List.mem_append.mp hu with h | h
    · exact Or.inl h
    · exact Or.inr (List.mem_singleton.mp h)

/-- Invariants of the innermost matching loop: it never changes the status
rows; it only appends to the triangle list; every newly saved row is also a
newly appended triangle; and every appended triangle is built by mkTriangle
from a scanned relation targeting the closing node together with the first
matches for the other two edges. -/
theorem matchRel3_invariants (hasDb : Bool) (sr : Triangle → Bool)
    (n B C : String) (RF RTB : List RelEdge) :
    ∀ (rel3s : List RelEdge) (st : BState),
      ((matchRel3 hasDb sr n B C RF RTB rel3s st).state.store.status
        = st.store.status)
      ∧ (∃ l, (matchRel3 hasDb sr n B C RF RTB rel3s st).state.triangles
          = st.triangles ++ l)
      ∧ (∀ u ∈ (matchRel3 hasDb sr n B C RF RTB rel3s st).state.store.saved,
          u ∈ st.store.saved
          ∨ u ∈ (matchRel3 hasDb sr n B C RF RTB rel3s st).state.triangles)
      ∧ (∀ t ∈ (matchRel3 hasDb sr n B C RF RTB rel3s st).state.triangles,
          t ∈ st.triangles
          ∨ ∃ r3 ∈ rel3s, r3.target = C
            ∧ ∃ rr1, RF.find? (fun r => r.target == B) = some rr1
            ∧ ∃ rr2, RTB.find? (fun r => r.source == C) = some rr2
            ∧ t = mkTriangle n B C rr1 rr2 r3) := by
  intro rel3s
  induction rel3s with
  | nil =>
    intro st
    exact ⟨rfl, ⟨[], by simp [matchRel3, LoopRes.state]⟩,
      fun u hu => Or.inl hu, fun t ht => Or.inl ht⟩
  | cons rel3 rest ih =>
    intro st
    cases hc : (rel3.target == C) with
    | false =>
      have e : matchRel3 hasDb sr n B C RF RTB (rel3 :: rest) st
          = matchRel3 hasDb sr n B C RF RTB rest st := by
        simp [matchRel3, hc]
      rw [e]
      rcases ih st with ⟨h1, ⟨l, h2⟩, h3, h4⟩
      refine ⟨h1, ⟨l, h2⟩, h3, fun t ht => ?_⟩
      rcases h4 t ht with h | ⟨r3, hm, hrest⟩
      · exact Or.inl h
      · exact Or.inr ⟨r3, List.mem_cons_of_mem _ hm, hrest⟩
    | true =>
      have hceq : rel3.target = C := by simpa using hc
      cases hf1 : RF.find? (fun r => r.target == B) with
      | none =>
        have e : matchRel3 hasDb sr n B C RF RTB (rel3 :: rest) st
            = LoopRes.exn st := by
          simp [matchRel3, hc, hf1]
        rw [e]
        exact ⟨rfl, ⟨[], by simp [LoopRes.state]⟩,
          fun u hu => Or.inl hu, fun t ht => Or.inl ht⟩
      | some r1 =>
        cases hf2 : RTB.find? (fun r => r.source == C) with
        | none =>
          have e : matchRel3 hasDb sr n B C RF RTB (rel3 :: rest) st
              = LoopRes.exn st := by
            simp [matchRel3, hc, hf1, hf2]
          rw [e]
          exact ⟨rfl, ⟨[], by simp [LoopRes.state]⟩,
            fun u hu => Or.inl hu, fun t ht => Or.inl ht⟩
        | some r2 =>
          cases hsv : (hasDb && sr (mkTriangle n B C r1 r2 rel3)) with
          | true =>
            have e : matchRel3 hasDb sr n B C RF RTB (rel3 :: rest) st
                = LoopRes.exn
                  { st with triangles :=
                      st.triangles ++ [mkTriangle n B C r1 r2 rel3] } := by
              simp [matchRel3, hc, hf1, hf2, hsv]
            rw [e]
            refine ⟨rfl, ⟨[mkTriangle n B C r1 r2 rel3], rfl⟩,
              fun u hu => Or.inl hu, fun t ht => ?_⟩
            rcases List.mem_append.mp ht with h | h
            · exact Or.inl h
            · exact Or.inr ⟨rel3, List.mem_cons_self _ _, hceq,
                r1, rfl, r2, rfl, List.mem_singleton.mp h⟩
          | false =>
            have e : matchRel3 hasDb sr n B C RF RTB (rel3 :: rest) st
                = matchRel3 hasDb sr n B C RF RTB rest
                  ⟨st.triangles ++ [mkTriangle n B C r1 r2 rel3],
                    st.tfn + 1, bump st.stats r1.rtype,
                    if hasDb then
                      (save_triangle st.store (mkTriangle n B C r1 r2 rel3)).1
                    else st.store⟩ := by
              simp only [matchRel3, hc, hf1, hf2, hsv]
              cases hasDb <;> rfl
            rw [e]
            rcases ih ⟨st.triangles ++ [mkTriangle n B C r1 r2 rel3],
                st.tfn + 1, bump st.stats r1.rtype,
                if hasDb then
                  (save_triangle st.store (mkTriangle n B C r1 r2 rel3)).1
                else st.store⟩ with ⟨h1, ⟨l, h2⟩, h3, h4⟩
            have hst : (if hasDb then
                  (save_triangle st.store (mkTriangle n B C r1 r2 rel3)).1
                else st.store).status = st.store.status := by
              cases hasDb
              · rfl
              · simpa using save_triangle_status st.store _
            refine ⟨by rw [h1]; exact hst, ⟨mkTriangle n B C r1 r2 rel3 :: l,
              by rw [h2]; simp⟩, fun u hu => ?_, fun t ht => ?_⟩
            · rcases h3 u hu with h | h
              · have hsub : u ∈ st.store.saved
                    ∨ u = mkTriangle n B C r1 r2 rel3 := by
                  cases hasDb with
                  | false => exact Or.inl h
                  | true => exact save_triangle_saved_sub st.store _ u (by simpa using h)
                rcases hsub with h' | h'
                · exact Or.inl h'
                · right
                  rw [h2]
                  subst h'
                  exact List.mem_append_left _ (List.mem_append_right _ (List.mem_singleton.mpr rfl))
              · exact Or.inr h
            · rcases h4 t ht with h | ⟨r3, hm, hct, rr1, hrr1, rr2, hrr2, heq⟩
              · rcases List.mem_append.mp h with h' | h'
                · exact Or.inl h'
                · exact Or.inr ⟨rel3, List.mem_cons_self _ _, hceq,
                    r1, rfl, r2, rfl, List.mem_singleton.mp h'⟩
              · exact Or.inr ⟨r3, List.mem_cons_of_mem _ hm, hct,
                  rr1, hf1 ▸ hrr1, rr2, hf2 ▸ hrr2, heq⟩

/-- Membership is unchanged by first-occurrence deduplication. -/
theorem dedup_mem (a : String) : ∀ l : List String, a ∈ dedup l ↔ a ∈ l := by
  intro l
  induction l with
  | nil => simp [dedup]
  | cons x xs ih =>
    simp only [dedup, List.mem_cons, List.mem_filter, bne_iff_ne, ne_eq, ih]
    constructor
    · rintro (h | ⟨h, _⟩)
      · exact Or.inl h
      · exact Or.inr h
    · rintro (h | h)
      · exact Or.inl h
      · by_cases hx : a = x
        · exact Or.inl hx
        · exact Or.inr ⟨h, hx⟩

/-- Invariants of the closing-node loop, lifted from the innermost loop:
status rows unchanged, triangles only appended, new saved rows are new
triangles, and every new triangle arises from some scanned closing node of
the candidate list. -/
theorem sourcesLoop_invariants (hasDb : Bool) (sr : Triangle → Bool)
    (cap : Option Nat) (n B : String) (RF RTB : List RelEdge) :
    ∀ (cs : List String) (st : BState),
      ((sourcesLoop hasDb sr cap n B RF RTB cs st).state.store.status
        = st.store.status)
      ∧ (∃ l, (sourcesLoop hasDb sr cap n B RF RTB cs st).state.triangles
          = st.triangles ++ l)
      ∧ (∀ u ∈ (sourcesLoop hasDb sr cap n B RF RTB cs st).state.store.saved,
          u ∈ st.store.saved
          ∨ u ∈ (sourcesLoop hasDb sr cap n B RF RTB cs st).state.triangles)
      ∧ (∀ t ∈ (sourcesLoop hasDb sr cap n B RF RTB cs st).state.triangles,
          t ∈ st.triangles
          ∨ ∃ c ∈ cs, ∃ r3 ∈ RF, r3.target = c
            ∧ ∃ rr1, RF.find? (fun r => r.target == B) = some rr1
            ∧ ∃ rr2, RTB.find? (fun r => r.source == c) = some rr2
            ∧ t = mkTriangle n B c rr1 rr2 r3) := by
  intro cs
  induction cs with
  | nil =>
    intro st
    exact ⟨rfl, ⟨[], by simp [sourcesLoop, LoopRes.state]⟩,
      fun u hu => Or.inl hu, fun t ht => Or.inl ht⟩
  | cons c cs ih =>
    intro st
    cases hcap : capReached cap st.tfn with
    | true =>
      have e : sourcesLoop hasDb sr cap n B RF RTB (c :: cs) st
          = LoopRes.early st := by
        simp [sourcesLoop, hcap]
      rw [e]
      exact ⟨rfl, ⟨[], by simp [LoopRes.state]⟩,
        fun u hu => Or.inl hu, fun t ht => Or.inl ht⟩
    | false =>
      rcases matchRel3_invariants hasDb sr n B c RF RTB RF st
        with ⟨m1, ⟨l1, m2⟩, m3, m4⟩
      cases hM : matchRel3 hasDb sr n B c RF RTB RF st with
      | ok st1 =>
        have e : sourcesLoop hasDb sr cap n B RF RTB (c :: cs) st
            = sourcesLoop hasDb sr cap n B RF RTB cs st1 := by
          simp [sourcesLoop, hcap, hM]
        rw [e]
        rw [hM] at m1 m2 m3 m4
        simp only [LoopRes.state] at m1 m2 m3 m4
        rcases ih st1 with ⟨i1, ⟨l2, i2⟩, i3, i4⟩
        refine ⟨by rw [i1]; exact m1, ⟨l1 ++ l2, by rw [i2, m2]; simp⟩,
          fun u hu => ?_, fun t ht => ?_⟩
        · rcases i3 u hu with h | h
          · rcases m3 u h with h' | h'
            · exact Or.inl h'
            · right; rw [i2]; exact List.mem_append_left _ h'
          · exact Or.inr h
        · rcases i4 t ht with h | ⟨c', hm, hrest⟩
          · rcases m4 t h with h' | ⟨r3, hr3, hrest⟩
            · exact Or.inl h'
            · exact Or.inr ⟨c, List.mem_cons_self _ _, r3, hr3, hrest⟩
          · exact Or.inr ⟨c', List.mem_cons_of_mem _ hm, hrest⟩
      | early st1 =>
        have e : sourcesLoop hasDb sr cap n B RF RTB (c :: cs) st
            = LoopRes.early st1 := by
          simp [sourcesLoop, hcap, hM]
        rw [e]
        rw [hM] at m1 m2 m3 m4
        refine ⟨m1, ⟨l1, m2⟩, m3, fun t ht => ?_⟩
        rcases m4 t ht with h | ⟨r3, hr3, hrest⟩
        · exact Or.inl h
        · exact Or.inr ⟨c, List.mem_cons_self _ _, r3, hr3, hrest⟩
      | exn st1 =>
        have e : sourcesLoop hasDb sr cap n B RF RTB (c :: cs) st
            = LoopRes.exn st1 := by
          simp [sourcesLoop, hcap, hM]
        rw [e]
        rw [hM] at m1 m2 m3 m4
        refine ⟨m1, ⟨l1, m2⟩, m3, fun t ht => ?_⟩
        rcases m4 t ht with h | ⟨r3, hr3, hrest⟩
        · exact Or.inl h
        · exact Or.inr ⟨c, List.mem_cons_self _ _, r3, hr3, hrest⟩

/-- Invariants of the target loop, lifted once more: every new triangle
comes from some candidate target b, with a closing node drawn from the
deduplicated sources of the relations incoming to b (which in particular
excludes the seed). -/
theorem targetsLoop_invariants (relTo : String → List RelEdge) (hasDb : Bool)
    (sr : Triangle → Bool) (cap : Option Nat) (n : String) (RF : List RelEdge) :
    ∀ (bs : List String) (st : BState),
      ((targetsLoop relTo hasDb sr cap n RF bs st).state.store.status
        = st.store.status)
      ∧ (∃ l, (targetsLoop relTo hasDb sr cap n RF bs st).state.triangles
          = st.triangles ++ l)
      ∧ (∀ u ∈ (targetsLoop relTo hasDb sr cap n RF bs st).state.store.saved,
          u ∈ st.store.saved
          ∨ u ∈ (targetsLoop relTo hasDb sr cap n RF bs st).state.triangles)
      ∧ (∀ t ∈ (targetsLoop relTo hasDb sr cap n RF bs st).state.triangles,
          t ∈ st.triangles
          ∨ ∃ b ∈ bs, ∃ c ∈ dedup (((relTo b).filter
              (fun r => r.source != n)).map (fun r => r.source)),
              ∃ r3 ∈ RF, r3.target = c
              ∧ ∃ rr1, RF.find? (fun r => r.target == b) = some rr1
              ∧ ∃ rr2, (relTo b).find? (fun r => r.source == c) = some rr2
              ∧ t = mkTriangle n b c rr1 rr2 r3) := by
  intro bs
  induction bs with
  | nil =>
    intro st
    exact ⟨rfl, ⟨[], by simp [targetsLoop, LoopRes.state]⟩,
      fun u hu => Or.inl hu, fun t ht => Or.inl ht⟩
  | cons b bs ih =>
    intro st
    cases hcap : capReached cap st.tfn with
    | true =>
      have e : targetsLoop relTo hasDb sr cap n RF (b :: bs) st
          = LoopRes.early st := by
        simp [targetsLoop, hcap]
      rw [e]
      exact ⟨rfl, ⟨[], by simp [LoopRes.state]⟩,
        fun u hu => Or.inl hu, fun t ht => Or.inl ht⟩
    | false =>
      cases hemp : (relTo b).isEmpty with
      | true =>
        have e : targetsLoop relTo hasDb sr cap n RF (b :: bs) st
            = targetsLoop relTo hasDb sr cap n RF bs st := by
          simp [targetsLoop, hcap, hemp]
        rw [e]
        rcases ih st with ⟨i1, ⟨l2, i2⟩, i3, i4⟩
        refine ⟨i1, ⟨l2, i2⟩, i3, fun t ht => ?_⟩
        rcases i4 t ht with h | ⟨b', hm, hrest⟩
        · exact Or.inl h
        · exact Or.inr ⟨b', List.mem_cons_of_mem _ hm, hrest⟩
      | false =>
        rcases sourcesLoop_invariants hasDb sr cap n b RF (relTo b)
            (dedup (((relTo b).filter
              (fun r => r.source != n)).map (fun r => r.source))) st
          with ⟨m1, ⟨l1, m2⟩, m3, m4⟩
        cases hS : sourcesLoop hasDb sr cap n b RF (relTo b)
            (dedup (((relTo b).filter
              (fun r => r.source != n)).map (fun r => r.source))) st with
        | ok st1 =>
          have e : targetsLoop relTo hasDb sr cap n RF (b :: bs) st
              = targetsLoop relTo hasDb sr cap n RF bs st1 := by
            simp [targetsLoop, hcap, hemp, hS]
          rw [e]
          rw [hS] at m1 m2 m3 m4
          simp only [LoopRes.state] at m1 m2 m3 m4
          rcases ih st1 with ⟨i1, ⟨l2, i2⟩, i3, i4⟩
          refine ⟨by rw [i1]; exact m1, ⟨l1 ++ l2, by rw [i2, m2]; simp⟩,
            fun u hu => ?_, fun t ht => ?_⟩
          · rcases i3 u hu with h | h
            · rcases m3 u h with h' | h'
              · exact Or.inl h'
              · right; rw [i2]; exact List.mem_append_left _ h'
            · exact Or.inr h
          · rcases i4 t ht with h | ⟨b', hm, hrest⟩
            · rcases m4 t h with h' | ⟨c, hcm, hrest⟩
              · exact Or.inl h'
              · exact Or.inr ⟨b, List.mem_cons_self _ _, c, hcm, hrest⟩
            · exact Or.inr ⟨b', List.mem_cons_of_mem _ hm, hrest⟩
        | early st1 =>
          have e : targetsLoop relTo hasDb sr cap n RF (b :: bs) st
              = LoopRes.early st1 := by
            simp [targetsLoop, hcap, hemp, hS]
          rw [e]
          rw [hS] at m1 m2 m3 m4
          refine ⟨m1, ⟨l1, m2⟩, m3, fun t ht => ?_⟩
          rcases m4 t ht with h | ⟨c, hcm, hrest⟩
          · exact Or.inl h
          · exact Or.inr ⟨b, List.mem_cons_self _ _, c, hcm, hrest⟩
        | exn st1 =>
          have e : targetsLoop relTo hasDb sr cap n RF (b :: bs) st
              = LoopRes.exn st1 := by
            simp [targetsLoop, hcap, hemp, hS]
          rw [e]
          rw [hS] at m1 m2 m3 m4
          refine ⟨m1, ⟨l1, m2⟩, m3, fun t ht => ?_⟩
          rcases m4 t ht with h | ⟨c, hcm, hrest⟩
          · exact Or.inl h
          · exact Or.inr ⟨b, List.mem_cons_self _ _, c, hcm, hrest⟩

/-- Entering processing does not change the triangle list. -/
theorem markStart_triangles (d : Bool) (st : FinderState) (nm : String) :
    (markStart d st nm).triangles = st.triangles := by
  rw [markStart]; split <;> rfl

/-- Entering processing does not change the statistics. -/
theorem markStart_stats (d : Bool) (st : FinderState) (nm : String) :
    (markStart d st nm).relationStats = st.relationStats := by
  rw [markStart]; split <;> rfl

/-- Entering processing does not change the saved triangle rows. -/
theorem markStart_saved (d : Bool) (st : FinderState) (nm : String) :
    (markStart d st nm).store.saved = st.store.saved := by
  rw [markStart]; split <;> rfl

/-- The completion epilogue does not change the triangle list. -/
theorem finishState_triangles (d : Bool) (st : FinderState) (nm : String) :
    (finishState d st nm).triangles = st.triangles := by
  rw [finishState]; split <;> rfl

/-- The completion epilogue does not change the saved triangle rows. -/
theorem finishState_saved (d : Bool) (st : FinderState) (nm : String) :
    (finishState d st nm).store.saved = st.store.saved := by
  rw [finishState]; split <;> rfl

/-- Any member of the deduplicated candidate-source list differs from the
seed name, because sources equal to the seed are filtered out (line 73). -/
theorem mem_sources_ne (n c : String) (RTB : List RelEdge)
    (h : c ∈ dedup ((RTB.filter (fun r => r.source != n)).map
        (fun r => r.source))) : c ≠ n := by
  rw [dedup_mem] at h
  rcases List.mem_map.mp h with ⟨r, hr, hrc⟩
  have hf := (List.mem_filter.mp hr).2
  subst hrc
  simpa [bne_iff_ne] using hf

/-- Shape of every triangle produced by one find_triangles call: it either
was already in the list, or it is built by mkTriangle for the seed name with
a closing node distinct from the seed, an A-to-C relation drawn from the
outgoing list, and the first matching relations for the other two edges;
moreover every newly saved store row is one of the produced triangles. -/
theorem ftCore_shape (relFrom relTo : String → List RelEdge) (hasDb : Bool)
    (cap : Option Nat) (sr : Triangle → Bool) (ipr pr : String → Bool)
    (st0 : FinderState) (sn : PyVal) (v : List Triangle) (st' : FinderState)
    (h : ftCore relFrom relTo hasDb cap sr ipr pr st0 sn = FTRes.returns v st') :
    (∀ t ∈ st'.triangles, t ∈ st0.triangles
      ∨ ∃ nm b c, sn = PyVal.dict (some nm) ∧ c ≠ nm
        ∧ ∃ r3 ∈ relFrom nm, r3.target = c
        ∧ ∃ rr1, (relFrom nm).find? (fun r => r.target == b) = some rr1
        ∧ ∃ rr2, (relTo b).find? (fun r => r.source == c) = some rr2
        ∧ t = mkTriangle nm b c rr1 rr2 r3)
    ∧ (∀ u ∈ st'.store.saved, u ∈ st0.store.saved ∨ u ∈ st'.triangles) := by
  cases sn with
  | nonDict =>
    cases h
    exact ⟨fun t ht => Or.inl ht, fun u hu => Or.inl hu⟩
  | dict onm =>
    cases onm with
    | none =>
      cases h
      exact ⟨fun t ht => Or.inl ht, fun u hu => Or.inl hu⟩
    | some nm =>
      rw [ftCore] at h
      by_cases h1 : nm = ""
      · rw [if_pos h1] at h
        cases h
        exact ⟨fun t ht => Or.inl ht, fun u hu => Or.inl hu⟩
      · rw [if_neg h1] at h
        cases h2 : (hasDb && is_node_processed st0.store nm) with
        | true =>
          rw [if_pos h2] at h
          cases h
          exact ⟨fun t ht => Or.inl ht, fun u hu => Or.inl hu⟩
        | false =>
          rw [if_neg (by simp [h2])] at h
          by_cases h3 : nm ∈ st0.processedNodes
          · rw [if_pos h3] at h
            cases h
            exact ⟨fun t ht => Or.inl ht, fun u hu => Or.inl hu⟩
          · rw [if_neg h3] at h
            cases h4 : (hasDb && ipr nm) with
            | true =>
              rw [if_pos h4] at h
              exact FTRes.noConfusion h
            | false =>
              rw [if_neg (by simp [h4])] at h
              cases h5 : (relFrom nm).isEmpty with
              | true =>
                rw [if_pos h5] at h
                cases h
                refine ⟨fun t ht => ?_, fun u hu => ?_⟩
                · rw [markStart_triangles] at ht
                  exact Or.inl ht
                · rw [markStart_saved] at hu
                  exact Or.inl hu
              | false =>
                rw [if_neg (by simp [h5])] at h
                rcases targetsLoop_invariants relTo hasDb sr cap nm
                    (relFrom nm)
                    (dedup ((relFrom nm).map (fun r => r.target)))
                    ⟨(markStart hasDb st0 nm).triangles, 0,
                      (markStart hasDb st0 nm).relationStats,
                      (markStart hasDb st0 nm).store⟩
                  with ⟨_, _, m3, m4⟩
                cases hT : targetsLoop relTo hasDb sr cap nm (relFrom nm)
                    (dedup ((relFrom nm).map (fun r => r.target)))
                    ⟨(markStart hasDb st0 nm).triangles, 0,
                      (markStart hasDb st0 nm).relationStats,
                      (markStart hasDb st0 nm).store⟩ with
                | exn b =>
                  rw [hT] at h m3 m4
                  simp only [LoopRes.state] at m3 m4
                  simp only [] at h
                  cases h
                  refine ⟨fun t ht => ?_, fun u hu => ?_⟩
                  · simp only [restoreState] at ht
                    rcases m4 t ht with hm | ⟨b', hbm, c, hcm, r3, hr3, hct,
                        rr1, hrr1, rr2, hrr2, heq⟩
                    · rw [markStart_triangles] at hm
                      exact Or.inl hm
                    · exact Or.inr ⟨nm, b', c, rfl,
                        mem_sources_ne nm c (relTo b') hcm,
                        r3, hr3, hct, rr1, hrr1, rr2, hrr2, heq⟩
                  · simp only [restoreState] at hu
                    rcases m3 u hu with hm | hm
                    · rw [markStart_saved] at hm
                      exact Or.inl hm
                    · exact Or.inr hm
                | early b =>
                  rw [hT] at h m3 m4
                  simp only [LoopRes.state] at m3 m4
                  simp only [] at h
                  cases h
                  refine ⟨fun t ht => ?_, fun u hu => ?_⟩
                  · simp only [restoreState] at ht
                    rcases m4 t ht with hm | ⟨b', hbm, c, hcm, r3, hr3, hct,
                        rr1, hrr1, rr2, hrr2, heq⟩
                    · rw [markStart_triangles] at hm
                      exact Or.inl hm
                    · exact Or.inr ⟨nm, b', c, rfl,
                        mem_sources_ne nm c (relTo b') hcm,
                        r3, hr3, hct, rr1, hrr1, rr2, hrr2, heq⟩
                  · simp only [restoreState] at hu
                    rcases m3 u hu with hm | hm
                    · rw [markStart_saved] at hm
                      exact Or.inl hm
                    · exact Or.inr hm
                | ok b =>
                  rw [hT] at h m3 m4
                  simp only [LoopRes.state] at m3 m4
                  simp only [] at h
                  cases h6 : (hasDb && pr nm) with
                  | true =>
                    rw [if_pos h6] at h
                    exact FTRes.noConfusion h
                  | false =>
                    rw [if_neg (by simp [h6])] at h
                    cases h
                    refine ⟨fun t ht => ?_, fun u hu => ?_⟩
                    · rw [finishState_triangles] at ht
                      simp only [restoreState] at ht
                      rcases m4 t ht with hm | ⟨b', hbm, c, hcm, r3, hr3, hct,
                          rr1, hrr1, rr2, hrr2, heq⟩
                      · rw [markStart_triangles] at hm
                        exact Or.inl hm
                      · exact Or.inr ⟨nm, b', c, rfl,
                          mem_sources_ne nm c (relTo b') hcm,
                          r3, hr3, hct, rr1, hrr1, rr2, hrr2, heq⟩
                    · rw [finishState_saved] at hu
                      simp only [restoreState] at hu
                      rcases m3 u hu with hm | hm
                      · rw [markStart_saved] at hm
                        exact Or.inl hm
                      · right
                        rw [finishState_triangles]
                        simp only [restoreState]
                        exact hm

/-- C5 (amended): every triangle newly produced by a find_triangles call has
its closing node C different from its seed A, because the seed is excluded
from candidate sources; the counterexample shows the other two distinctness
conditions (A different from B, B different from C) do not hold in general. -/
theorem closing_node_differs_from_seed (env : Env) (st0 : FinderState)
    (sn : PyVal) (v : List Triangle) (st' : FinderState)
    (h : find_triangles env st0 sn = FTRes.returns v st') :
    ∀ t ∈ st'.triangles, t ∈ st0.triangles ∨ t.C ≠ t.A := by
  have h' := h
  rw [find_triangles] at h'
  rcases ftCore_shape env.relFrom env.relTo env.hasDb env.cap env.saveRaises
    env.inProgressRaises env.processedRaises st0 sn v st' h' with ⟨hs, _⟩
  intro t ht
  rcases hs t ht with hm | ⟨nm, b, c, _, hcne, r3, _, _, rr1, _, rr2, _, heq⟩
  · exact Or.inl hm
  · right
    subst heq
    simpa [mkTriangle] using hcne

/-- Witness for C5 (amended): the triangle of the self-loop scenario indeed
has its C distinct from its A (even though its A equals its B). -/
theorem closing_node_differs_from_seed_witness :
    triLoop ∈ emptyState.triangles ∨ triLoop.C ≠ triLoop.A :=
  closing_node_differs_from_seed envLoop emptyState (PyVal.dict (some "a"))
    [triLoop] stLoop rfl triLoop (by simp [stLoop])

/-- Relations processed from an already type-filtered raw list keep their
type codes inside the filtered set. -/
theorem processRelations_types (nodes : List RawNode)
    (ni : Nat → Option RawNode) :
    ∀ (rels : List RawRel),
      (∀ rr ∈ rels, EXCLUDED_RELATION_TYPES.contains rr.rtype = false) →
      ∀ r ∈ processRelations nodes ni rels,
        EXCLUDED_RELATION_TYPES.contains r.rtype = false := by
  intro rels
  induction rels with
  | nil => intro _ r hr; simp [processRelations] at hr
  | cons rr rest ih =>
    intro hall r hr
    cases hn1 : resolveNode nodes ni rr.node1 with
    | none =>
      simp only [processRelations, hn1] at hr
      exact ih (fun x hx => hall x (List.mem_cons_of_mem _ hx)) r hr
    | some sn =>
      cases hn2 : resolveNode nodes ni rr.node2 with
      | none =>
        simp only [processRelations, hn1, hn2] at hr
        exact ih (fun x hx => hall x (List.mem_cons_of_mem _ hx)) r hr
      | some tn =>
        simp only [processRelations, hn1, hn2] at hr
        rcases List.mem_cons.mp hr with h | h
        · subst h
          exact hall rr (List.mem_cons_self _ _)
        · exact ih (fun x hx => hall x (List.mem_cons_of_mem _ hx)) r h

/-- No relation delivered by the client processing pipeline carries an
excluded type code: the type filter runs before endpoint resolution. -/
theorem relations_of_response_not_excluded (ni : Nat → Option RawNode)
    (resp : RawResp) (r : RelEdge) (h : r ∈ relations_of_response ni resp) :
    EXCLUDED_RELATION_TYPES.contains r.rtype = false := by
  cases resp with
  | malformed => simp [relations_of_response] at h
  | ok relations nodes =>
    simp only [relations_of_response] at h
    refine processRelations_types nodes ni (filter_relations relations) ?_ r h
    intro rr hrr
    have hf := (List.mem_filter.mp hrr).2
    simpa using hf

/-- C4: in a run whose relation accessors are the client pipeline (filter
then resolve), every triangle produced by find_triangles and every triangle
row saved into the store has all three edge type codes outside the excluded
set. -/
theorem triangles_have_no_excluded_types (ni : Nat → Option RawNode)
    (respF respT : String → RawResp) (hasDb : Bool) (cap : Option Nat)
    (sr : Triangle → Bool) (st0 : FinderState) (sn : PyVal)
    (v : List Triangle) (st' : FinderState)
    (h0 : st0.triangles = []) (h1 : st0.store.saved = [])
    (h : find_triangles (clientEnv ni respF respT hasDb cap sr) st0 sn
      = FTRes.returns v st') :
    (∀ t ∈ st'.triangles,
      EXCLUDED_RELATION_TYPES.contains t.a_to_b = false
      ∧ EXCLUDED_RELATION_TYPES.contains t.c_to_b = false
      ∧ EXCLUDED_RELATION_TYPES.contains t.a_to_c = false)
    ∧ (∀ u ∈ st'.store.saved,
      EXCLUDED_RELATION_TYPES.contains u.a_to_b = false
      ∧ EXCLUDED_RELATION_TYPES.contains u.c_to_b = false
      ∧ EXCLUDED_RELATION_TYPES.contains u.a_to_c = false) := by
  have h' := h
  rw [find_triangles] at h'
  rcases ftCore_shape (clientEnv ni respF respT hasDb cap sr).relFrom
    (clientEnv ni respF respT hasDb cap sr).relTo
    (clientEnv ni respF respT hasDb cap sr).hasDb
    (clientEnv ni respF respT hasDb cap sr).cap
    (clientEnv ni respF respT hasDb cap sr).saveRaises
    (clientEnv ni respF respT hasDb cap sr).inProgressRaises
    (clientEnv ni respF respT hasDb cap sr).processedRaises
    st0 sn v st' h' with ⟨hs, hv⟩
  have main : ∀ t ∈ st'.triangles,
      EXCLUDED_RELATION_TYPES.contains t.a_to_b = false
      ∧ EXCLUDED_RELATION_TYPES.contains t.c_to_b = false
      ∧ EXCLUDED_RELATION_TYPES.contains t.a_to_c = false := by
    intro t ht
    rcases hs t ht with hm |
      ⟨nm, b, c, _, _, r3, hr3, _, rr1, hrr1, rr2, hrr2, heq⟩
    · rw [h0] at hm
      exact absurd hm (List.not_mem_nil t)
    · subst heq
      exact ⟨relations_of_response_not_excluded ni (respF nm) rr1
          (List.mem_of_find?_eq_some hrr1),
        relations_of_response_not_excluded ni (respT b) rr2
          (List.mem_of_find?_eq_some hrr2),
        relations_of_response_not_excluded ni (respF nm) r3 hr3⟩
  refine ⟨main, fun u hu => ?_⟩
  rcases hv u hu with hm | hm
  · rw [h1] at hm
    exact absurd hm (List.not_mem_nil u)
  · exact main u hm

/-- Witness for C4: the triangle found and saved by the concrete
client-pipeline run (whose raw payload even contains an excluded type-1001
relation on the a-to-c endpoint pair) carries no excluded type code. -/
theorem triangles_have_no_excluded_types_witness :
    EXCLUDED_RELATION_TYPES.contains triClient.a_to_b = false
    ∧ EXCLUDED_RELATION_TYPES.contains triClient.c_to_b = false
    ∧ EXCLUDED_RELATION_TYPES.contains triClient.a_to_c = false :=
  (triangles_have_no_excluded_types niNone respFClient respTClient true none
    (fun _ => false) emptyState (PyVal.dict (some "a")) [triClient] stClient
    rfl rfl rfl).1 triClient (by simp [stClient])

/-- Reading back the status row just written. -/
theorem getStatus_setStatus (s : Store) (nm : String) (x : NodeStatus) :
    getStatus (setStatus s nm x) nm = some x := by
  simp [getStatus, setStatus, List.find?]

/-- getStatus only depends on the status rows. -/
theorem getStatus_ext (s t : Store) (nm : String) (h : s.status = t.status) :
    getStatus s nm = getStatus t nm := by
  rw [getStatus, getStatus, h]

/-- With a store attached, entering processing writes the in_progress row. -/
theorem markStart_store_true (st : FinderState) (nm : String) :
    (markStart true st nm).store = mark_node_in_progress st.store nm := by
  rw [markStart]
  simp

/-- C2 (amended): for a seed that enters processing with a store attached,
completion marking behaves as follows: an empty outgoing-relations result
returns the empty list with the node still in_progress; an early cap exit
returns the accumulated triangle list with the node still in_progress; and
only the normal fall-through of the target loop marks the node completed. -/
theorem completion_marking_characterization (env : Env) (st0 : FinderState)
    (nm : String)
    (hdb : env.hasDb = true)
    (hne : nm ≠ "")
    (hproc : is_node_processed st0.store nm = false)
    (hmem : nm ∉ st0.processedNodes)
    (hipr : env.inProgressRaises nm = false)
    (hpr : env.processedRaises nm = false) :
    (env.relFrom nm = [] →
      find_triangles env st0 (PyVal.dict (some nm))
        = FTRes.returns [] (markStart env.hasDb st0 nm)
      ∧ getStatus (markStart env.hasDb st0 nm).store nm
        = some NodeStatus.inProgress)
    ∧ (∀ b, env.relFrom nm ≠ [] →
        targetsLoop env.relTo env.hasDb env.saveRaises env.cap nm
          (env.relFrom nm)
          (dedup ((env.relFrom nm).map (fun r => r.target)))
          ⟨(markStart env.hasDb st0 nm).triangles, 0,
            (markStart env.hasDb st0 nm).relationStats,
            (markStart env.hasDb st0 nm).store⟩ = LoopRes.early b →
        find_triangles env st0 (PyVal.dict (some nm))
          = FTRes.returns b.triangles
              (restoreState (markStart env.hasDb st0 nm) b)
        ∧ getStatus b.store nm = some NodeStatus.inProgress)
    ∧ (∀ b, env.relFrom nm ≠ [] →
        targetsLoop env.relTo env.hasDb env.saveRaises env.cap nm
          (env.relFrom nm)
          (dedup ((env.relFrom nm).map (fun r => r.target)))
          ⟨(markStart env.hasDb st0 nm).triangles, 0,
            (markStart env.hasDb st0 nm).relationStats,
            (markStart env.hasDb st0 nm).store⟩ = LoopRes.ok b →
        find_triangles env st0 (PyVal.dict (some nm))
          = FTRes.returns b.triangles
              (finishState env.hasDb
                (restoreState (markStart env.hasDb st0 nm) b) nm)
        ∧ getStatus (finishState env.hasDb
            (restoreState (markStart env.hasDb st0 nm) b) nm).store nm
          = some NodeStatus.completed) := by
  have hg2 : ¬((env.hasDb && is_node_processed st0.store nm) = true) := by
    simp [hdb, hproc]
  have hg4 : ¬((env.hasDb && env.inProgressRaises nm) = true) := by
    simp [hipr]
  have hg6 : ¬((env.hasDb && env.processedRaises nm) = true) := by
    simp [hpr]
  refine ⟨?_, ?_, ?_⟩
  · intro hrel
    have hemp : (env.relFrom nm).isEmpty = true := by rw [hrel]; rfl
    constructor
    · rw [find_triangles, ftCore, if_neg hne, if_neg hg2, if_neg hmem,
        if_neg hg4, if_pos hemp]
    · rw [hdb, markStart_store_true, mark_node_in_progress, getStatus_setStatus]
  · intro b hrelne hT
    constructor
    · rw [find_triangles, ftCore, if_neg hne, if_neg hg2, if_neg hmem,
        if_neg hg4]
      have hemp : ¬((env.relFrom nm).isEmpty = true) := fun hx =>
        hrelne (List.isEmpty_iff.mp hx)
      rw [if_neg hemp]
      simp only [hT]
    · rcases targetsLoop_invariants env.relTo env.hasDb env.saveRaises env.cap
        nm (env.relFrom nm) (dedup ((env.relFrom nm).map (fun r => r.target)))
        ⟨(markStart env.hasDb st0 nm).triangles, 0,
          (markStart env.hasDb st0 nm).relationStats,
          (markStart env.hasDb st0 nm).store⟩ with ⟨m1, _, _, _⟩
      rw [hT] at m1
      simp only [LoopRes.state] at m1
      rw [getStatus_ext b.store (markStart env.hasDb st0 nm).store nm m1]
      rw [hdb, markStart_store_true, mark_node_in_progress, getStatus_setStatus]
  · intro b hrelne hT
    constructor
    · rw [find_triangles, ftCore, if_neg hne, if_neg hg2, if_neg hmem,
        if_neg hg4]
      have hemp : ¬((env.relFrom nm).isEmpty = true) := fun hx =>
        hrelne (List.isEmpty_iff.mp hx)
      rw [if_neg hemp]
      simp only [hT]
      rw [if_neg hg6]
    · rw [hdb]
      simp [finishState, mark_node_processed, restoreState, getStatus_setStatus]

/-- Witness for C2 (amended): in the empty-relations store-attached run, the
seed mot enters processing and its status after the call is in_progress. -/
theorem completion_marking_characterization_witness :
    getStatus (markStart envEmptyRels.hasDb emptyState "mot").store "mot"
      = some NodeStatus.inProgress :=
  ((completion_marking_characterization envEmptyRels emptyState "mot" rfl
    (by decide) rfl (by simp [emptyState]) rfl rfl).1 rfl).2

/-- C8 (amended): an exception escapes find_triangles only from the two
status-marking store operations that sit outside the try block.  If neither
mark_node_in_progress nor mark_node_processed raises, no call raises — in
particular a raising save_triangle (or any other failure inside the try
block) is swallowed by the blanket handler.  Conversely a raising
mark_node_in_progress on a node that enters processing does surface. -/
theorem only_status_marking_failures_surface (env : Env) (st0 : FinderState)
    (nm : String) :
    ((∀ m, env.inProgressRaises m = false) →
      (∀ m, env.processedRaises m = false) →
      ∀ sn, find_triangles env st0 sn ≠ FTRes.raises)
    ∧ (nm ≠ "" → (env.hasDb && is_node_processed st0.store nm) = false →
        nm ∉ st0.processedNodes → (env.hasDb && env.inProgressRaises nm) = true →
        find_triangles env st0 (PyVal.dict (some nm)) = FTRes.raises) := by
  constructor
  · intro hi hp sn
    cases sn with
    | nonDict => simp [find_triangles, ftCore]
    | dict onm =>
      cases onm with
      | none => simp [find_triangles, ftCore]
      | some nm' =>
        rw [find_triangles, ftCore]
        by_cases h1 : nm' = ""
        · rw [if_pos h1]; simp
        · rw [if_neg h1]
          split
          · simp
          · split
            · simp
            · rw [if_neg (show ¬((env.hasDb && env.inProgressRaises nm')
                  = true) by simp [hi nm'])]
              split
              · simp
              · split
                · simp
                · simp
                · rw [if_neg (show ¬((env.hasDb && env.processedRaises nm')
                      = true) by simp [hp nm'])]
                  simp
  · intro hne hproc hmem hraise
    rw [find_triangles, ftCore, if_neg hne,
      if_neg (show ¬((env.hasDb && is_node_processed st0.store nm) = true)
        by simp [hproc]),
      if_neg hmem, if_pos hraise]

/-- Witness for C8 (amended): in the failing-save run (save_triangle always
raises, the status markers never do), the call does not raise. -/
theorem only_status_marking_failures_surface_witness :
    find_triangles envSaveFails emptyState (PyVal.dict (some "a"))
      ≠ FTRes.raises :=
  (only_status_marking_failures_surface envSaveFails emptyState "a").1
    (fun _ => rfl) (fun _ => rfl) (PyVal.dict (some "a"))

/-- C10: the return value of find_triangles in every case.  All guard
paths (non-dict input, absent or empty name, node already completed in the
store, node already visited in this run), the empty-outgoing path and the
exception path return the empty list — not the accumulated global list,
even when self.triangles is non-empty; the cap early-exit and the normal
fall-through return the global triangle list, which extends the previously
accumulated one. -/
theorem find_triangles_return_value_cases (env : Env) (st0 : FinderState) :
    (find_triangles env st0 PyVal.nonDict = FTRes.returns [] st0)
    ∧ (find_triangles env st0 (PyVal.dict none) = FTRes.returns [] st0)
    ∧ (find_triangles env st0 (PyVal.dict (some "")) = FTRes.returns [] st0)
    ∧ (∀ nm, nm ≠ "" → (env.hasDb && is_node_processed st0.store nm) = true →
        find_triangles env st0 (PyVal.dict (some nm)) = FTRes.returns [] st0)
    ∧ (∀ nm, nm ≠ "" → (env.hasDb && is_node_processed st0.store nm) = false →
        nm ∈ st0.processedNodes →
        find_triangles env st0 (PyVal.dict (some nm)) = FTRes.returns [] st0)
    ∧ (∀ nm, nm ≠ "" → (env.hasDb && is_node_processed st0.store nm) = false →
        nm ∉ st0.processedNodes →
        (env.hasDb && env.inProgressRaises nm) = false →
        env.relFrom nm = [] →
        find_triangles env st0 (PyVal.dict (some nm))
          = FTRes.returns [] (markStart env.hasDb st0 nm))
    ∧ (∀ nm b, nm ≠ "" → (env.hasDb && is_node_processed st0.store nm) = false →
        nm ∉ st0.processedNodes →
        (env.hasDb && env.inProgressRaises nm) = false →
        env.relFrom nm ≠ [] →
        targetsLoop env.relTo env.hasDb env.saveRaises env.cap nm
          (env.relFrom nm)
          (dedup ((env.relFrom nm).map (fun r => r.target)))
          ⟨(markStart env.hasDb st0 nm).triangles, 0,
            (markStart env.hasDb st0 nm).relationStats,
            (markStart env.hasDb st0 nm).store⟩ = LoopRes.exn b →
        find_triangles env st0 (PyVal.dict (some nm))
          = FTRes.returns [] (restoreState (markStart env.hasDb st0 nm) b))
    ∧ (∀ nm b, nm ≠ "" → (env.hasDb && is_node_processed st0.store nm) = false →
        nm ∉ st0.processedNodes →
        (env.hasDb && env.inProgressRaises nm) = false →
        env.relFrom nm ≠ [] →
        targetsLoop env.relTo env.hasDb env.saveRaises env.cap nm
          (env.relFrom nm)
          (dedup ((env.relFrom nm).map (fun r => r.target)))
          ⟨(markStart env.hasDb st0 nm).triangles, 0,
            (markStart env.hasDb st0 nm).relationStats,
            (markStart env.hasDb st0 nm).store⟩ = LoopRes.early b →
        find_triangles env st0 (PyVal.dict (some nm))
          = FTRes.returns b.triangles
              (restoreState (markStart env.hasDb st0 nm) b)
        ∧ ∃ more, b.triangles = st0.triangles ++ more)
    ∧ (∀ nm b, nm ≠ "" → (env.hasDb && is_node_processed st0.store nm) = false →
        nm ∉ st0.processedNodes →
        (env.hasDb && env.inProgressRaises nm) = false →
        env.relFrom nm ≠ [] →
        (env.hasDb && env.processedRaises nm) = false →
        targetsLoop env.relTo env.hasDb env.saveRaises env.cap nm
          (env.relFrom nm)
          (dedup ((env.relFrom nm).map (fun r => r.target)))
          ⟨(markStart env.hasDb st0 nm).triangles, 0,
            (markStart env.hasDb st0 nm).relationStats,
            (markStart env.hasDb st0 nm).store⟩ = LoopRes.ok b →
        find_triangles env st0 (PyVal.dict (some nm))
          = FTRes.returns b.triangles
              (finishState env.hasDb
                (restoreState (markStart env.hasDb st0 nm) b) nm)
        ∧ ∃ more, b.triangles = st0.triangles ++ more) := by
  refine ⟨rfl, rfl, by rw [find_triangles, ftCore, if_pos rfl],
    ?_, ?_, ?_, ?_, ?_, ?_⟩
  · intro nm hne hyes
    rw [find_triangles, ftCore, if_neg hne, if_pos hyes]
  · intro nm hne hno hmem
    rw [find_triangles, ftCore, if_neg hne,
      if_neg (show ¬((env.hasDb && is_node_processed st0.store nm) = true)
        by simp [hno]),
      if_pos hmem]
  · intro nm hne hno hmem hipr hrel
    rw [find_triangles, ftCore, if_neg hne,
      if_neg (show ¬((env.hasDb && is_node_processed st0.store nm) = true)
        by simp [hno]),
      if_neg hmem,
      if_neg (show ¬((env.hasDb && env.inProgressRaises nm) = true)
        by simp [hipr]),
      if_pos (show (env.relFrom nm).isEmpty = true by rw [hrel]; rfl)]
  · intro nm b hne hno hmem hipr hrelne hT
    rw [find_triangles, ftCore, if_neg hne,
      if_neg (show ¬((env.hasDb && is_node_processed st0.store nm) = true)
        by simp [hno]),
      if_neg hmem,
      if_neg (show ¬((env.hasDb && env.inProgressRaises nm) = true)
        by simp [hipr]),
      if_neg (show ¬((env.relFrom nm).isEmpty = true)
        from fun hx => hrelne (List.isEmpty_iff.mp hx))]
    simp only [hT]
  · intro nm b hne hno hmem hipr hrelne hT
    constructor
    · rw [find_triangles, ftCore, if_neg hne,
        if_neg (show ¬((env.hasDb && is_node_processed st0.store nm) = true)
          by simp [hno]),
        if_neg hmem,
        if_neg (show ¬((env.hasDb && env.inProgressRaises nm) = true)
          by simp [hipr]),
        if_neg (show ¬((env.relFrom nm).isEmpty = true)
          from fun hx => hrelne (List.isEmpty_iff.mp hx))]
      simp only [hT]
    · rcases targetsLoop_invariants env.relTo env.hasDb env.saveRaises env.cap
        nm (env.relFrom nm) (dedup ((env.relFrom nm).map (fun r => r.target)))
        ⟨(markStart env.hasDb st0 nm).triangles, 0,
          (markStart env.hasDb st0 nm).relationStats,
          (markStart env.hasDb st0 nm).store⟩ with ⟨_, ⟨l, m2⟩, _, _⟩
      rw [hT] at m2
      simp only [LoopRes.state] at m2
      rw [markStart_triangles] at m2
      exact ⟨l, m2⟩
  · intro nm b hne hno hmem hipr hrelne hpr hT
    constructor
    · rw [find_triangles, ftCore, if_neg hne,
        if_neg (show ¬((env.hasDb && is_node_processed st0.store nm) = true)
          by simp [hno]),
        if_neg hmem,
        if_neg (show ¬((env.hasDb && env.inProgressRaises nm) = true)
          by simp [hipr]),
        if_neg (show ¬((env.relFrom nm).isEmpty = true)
          from fun hx => hrelne (List.isEmpty_iff.mp hx))]
      simp only [hT]
      rw [if_neg (show ¬((env.hasDb && env.processedRaises nm) = true)
        by simp [hpr])]
    · rcases targetsLoop_invariants env.relTo env.hasDb env.saveRaises env.cap
        nm (env.relFrom nm) (dedup ((env.relFrom nm).map (fun r => r.target)))
        ⟨(markStart env.hasDb st0 nm).triangles, 0,
          (markStart env.hasDb st0 nm).relationStats,
          (markStart env.hasDb st0 nm).store⟩ with ⟨_, ⟨l, m2⟩, _, _⟩
      rw [hT] at m2
      simp only [LoopRes.state] at m2
      rw [markStart_triangles] at m2
      exact ⟨l, m2⟩

/-- Witness for C10: a skipped-path call (empty outgoing relations) on a
state that already holds an accumulated triangle returns the empty list,
not the accumulated list. -/
theorem find_triangles_return_value_cases_witness :
    find_triangles envBare stPrev (PyVal.dict (some "q"))
      = FTRes.returns [] (markStart envBare.hasDb stPrev "q") :=
  (find_triangles_return_value_cases envBare stPrev).2.2.2.2.2.1 "q"
    (by decide) rfl (by simp [stPrev]) rfl rfl

/-- Counting facts for the innermost matching loop: the number of appended
triangles is at most the number of scanned relations targeting the closing
node (also across an aborting save), the counter advances by at most that
number, and on normal fall-through appends and counter increments are
exactly paired. -/
theorem matchRel3_count (hasDb : Bool) (sr : Triangle → Bool)
    (n B C : String) (RF RTB : List RelEdge) :
    ∀ (rel3s : List RelEdge) (st : BState),
      ((matchRel3 hasDb sr n B C RF RTB rel3s st).state.triangles.length
        ≤ st.triangles.length + rel3s.countP (fun x => x.target == C))
      ∧ ((matchRel3 hasDb sr n B C RF RTB rel3s st).state.tfn
        ≤ st.tfn + rel3s.countP (fun x => x.target == C))
      ∧ (∀ out, matchRel3 hasDb sr n B C RF RTB rel3s st = LoopRes.ok out →
          out.triangles.length + st.tfn = st.triangles.length + out.tfn) := by
  intro rel3s
  induction rel3s with
  | nil =>
    intro st
    refine ⟨by simp [matchRel3, LoopRes.state], by simp [matchRel3, LoopRes.state],
      fun out hout => ?_⟩
    rw [matchRel3] at hout
    cases hout
    omega
  | cons rel3 rest ih =>
    intro st
    cases hc : (rel3.target == C) with
    | false =>
      have e : matchRel3 hasDb sr n B C RF RTB (rel3 :: rest) st
          = matchRel3 hasDb sr n B C RF RTB rest st := by
        simp [matchRel3, hc]
      rw [e]
      rcases ih st with ⟨h1, h2, h3⟩
      refine ⟨?_, ?_, h3⟩
      · simpa [List.countP_cons, hc] using h1
      · simpa [List.countP_cons, hc] using h2
    | true =>
      cases hf1 : RF.find? (fun r => r.target == B) with
      | none =>
        have e : matchRel3 hasDb sr n B C RF RTB (rel3 :: rest) st
            = LoopRes.exn st := by
          simp [matchRel3, hc, hf1]
        rw [e]
        exact ⟨by simp [LoopRes.state], by simp [LoopRes.state],
          fun out hout => LoopRes.noConfusion hout⟩
      | some r1 =>
        cases hf2 : RTB.find? (fun r => r.source == C) with
        | none =>
          have e : matchRel3 hasDb sr n B C RF RTB (rel3 :: rest) st
              = LoopRes.exn st := by
            simp [matchRel3, hc, hf1, hf2]
          rw [e]
          exact ⟨by simp [LoopRes.state], by simp [LoopRes.state],
            fun out hout => LoopRes.noConfusion hout⟩
        | some r2 =>
          cases hsv : (hasDb && sr (mkTriangle n B C r1 r2 rel3)) with
          | true =>
            have e : matchRel3 hasDb sr n B C RF RTB (rel3 :: rest) st
                = LoopRes.exn
                  { st with triangles :=
                      st.triangles ++ [mkTriangle n B C r1 r2 rel3] } := by
              simp [matchRel3, hc, hf1, hf2, hsv]
            rw [e]
            refine ⟨?_, ?_, fun out hout => LoopRes.noConfusion hout⟩
            · simp [LoopRes.state, List.countP_cons, hc]
            · simp [LoopRes.state, List.countP_cons, hc]
          | false =>
            have e : matchRel3 hasDb sr n B C RF RTB (rel3 :: rest) st
                = matchRel3 hasDb sr n B C RF RTB rest
                  ⟨st.triangles ++ [mkTriangle n B C r1 r2 rel3],
                    st.tfn + 1, bump st.stats r1.rtype,
                    if hasDb then
                      (save_triangle st.store (mkTriangle n B C r1 r2 rel3)).1
                    else st.store⟩ := by
              simp only [matchRel3, hc, hf1, hf2, hsv]
              cases hasDb <;> rfl
            rw [e]
            rcases ih ⟨st.triangles ++ [mkTriangle n B C r1 r2 rel3],
                st.tfn + 1, bump st.stats r1.rtype,
                if hasDb then
                  (save_triangle st.store (mkTriangle n B C r1 r2 rel3)).1
                else st.store⟩ with ⟨h1, h2, h3⟩
            refine ⟨?_, ?_, fun out hout => ?_⟩
            · simp only [List.length_append, List.length_cons,
                List.length_nil] at h1
              simp [List.countP_cons, hc]
              omega
            · simp only [] at h2
              simp [List.countP_cons, hc]
              omega
            · have := h3 out hout
              simp only [List.length_append, List.length_cons,
                List.length_nil] at this
              omega

/-- Bound propagation through the closing-node loop: if on entry the number
of triangles beyond some baseline is at most the counter, and the counter is
at most k - 1 + M (M bounding the per-closing-node multiplicity of the
outgoing list), both facts persist on normal fall-through, and on every exit
the triangle count stays within baseline + (k - 1 + M). -/
theorem sourcesLoop_bound (hasDb : Bool) (sr : Triangle → Bool)
    (k M st0len : Nat) (n B : String) (RF RTB : List RelEdge)
    (hM : ∀ c, RF.countP (fun r => r.target == c) ≤ M) :
    ∀ (cs : List String) (st : BState),
      st.triangles.length ≤ st0len + st.tfn → st.tfn ≤ k - 1 + M →
      ((sourcesLoop hasDb sr (some k) n B RF RTB cs st).state.triangles.length
        ≤ st0len + (k - 1 + M))
      ∧ (∀ out, sourcesLoop hasDb sr (some k) n B RF RTB cs st
          = LoopRes.ok out →
          out.triangles.length ≤ st0len + out.tfn ∧ out.tfn ≤ k - 1 + M) := by
  intro cs
  induction cs with
  | nil =>
    intro st hv1 hv2
    refine ⟨?_, fun out hout => ?_⟩
    · simp only [sourcesLoop, LoopRes.state]
      omega
    · rw [sourcesLoop] at hout
      cases hout
      exact ⟨hv1, hv2⟩
  | cons c cs ih =>
    intro st hv1 hv2
    cases hcap : capReached (some k) st.tfn with
    | true =>
      have e : sourcesLoop hasDb sr (some k) n B RF RTB (c :: cs) st
          = LoopRes.early st := by
        simp [sourcesLoop, hcap]
      rw [e]
      refine ⟨?_, fun out hout => LoopRes.noConfusion hout⟩
      simp only [LoopRes.state]
      omega
    | false =>
      have htfn : st.tfn ≤ k - 1 := by
        have hlt : ¬(k ≤ st.tfn) := by simpa [capReached] using hcap
        omega
      rcases matchRel3_count hasDb sr n B c RF RTB RF st with ⟨a1, a2, a3⟩
      have hcnt := hM c
      cases hM3 : matchRel3 hasDb sr n B c RF RTB RF st with
      | ok st1 =>
        have e : sourcesLoop hasDb sr (some k) n B RF RTB (c :: cs) st
            = sourcesLoop hasDb sr (some k) n B RF RTB cs st1 := by
          simp [sourcesLoop, hcap, hM3]
        rw [e]
        rw [hM3] at a1 a2
        simp only [LoopRes.state] at a1 a2
        have pair := a3 st1 hM3
        exact ih st1 (by omega) (by omega)
      | early st1 =>
        have e : sourcesLoop hasDb sr (some k) n B RF RTB (c :: cs) st
            = LoopRes.early st1 := by
          simp [sourcesLoop, hcap, hM3]
        rw [e]
        rw [hM3] at a1
        simp only [LoopRes.state] at a1
        refine ⟨?_, fun out hout => LoopRes.noConfusion hout⟩
        simp only [LoopRes.state]
        omega
      | exn st1 =>
        have e : sourcesLoop hasDb sr (some k) n B RF RTB (c :: cs) st
            = LoopRes.exn st1 := by
          simp [sourcesLoop, hcap, hM3]
        rw [e]
        rw [hM3] at a1
        simp only [LoopRes.state] at a1
        refine ⟨?_, fun out hout => LoopRes.noConfusion hout⟩
        simp only [LoopRes.state]
        omega

/-- Bound propagation through the target loop, lifted from the closing-node
loop. -/
theorem targetsLoop_bound (relTo : String → List RelEdge) (hasDb : Bool)
    (sr : Triangle → Bool) (k M st0len : Nat) (n : String) (RF : List RelEdge)
    (hM : ∀ c, RF.countP (fun r => r.target == c) ≤ M) :
    ∀ (bs : List String) (st : BState),
      st.triangles.length ≤ st0len + st.tfn → st.tfn ≤ k - 1 + M →
      ((targetsLoop relTo hasDb sr (some k) n RF bs st).state.triangles.length
        ≤ st0len + (k - 1 + M))
      ∧ (∀ out, targetsLoop relTo hasDb sr (some k) n RF bs st
          = LoopRes.ok out →
          out.triangles.length ≤ st0len + out.tfn ∧ out.tfn ≤ k - 1 + M) := by
  intro bs
  induction bs with
  | nil =>
    intro st hv1 hv2
    refine ⟨?_, fun out hout => ?_⟩
    · simp only [targetsLoop, LoopRes.state]
      omega
    · rw [targetsLoop] at hout
      cases hout
      exact ⟨hv1, hv2⟩
  | cons b bs ih =>
    intro st hv1 hv2
    cases hcap : capReached (some k) st.tfn with
    | true =>
      have e : targetsLoop relTo hasDb sr (some k) n RF (b :: bs) st
          = LoopRes.early st := by
        simp [targetsLoop, hcap]
      rw [e]
      refine ⟨?_, fun out hout => LoopRes.noConfusion hout⟩
      simp only [LoopRes.state]
      omega
    | false =>
      cases hemp : (relTo b).isEmpty with
      | true =>
        have e : targetsLoop relTo hasDb sr (some k) n RF (b :: bs) st
            = targetsLoop relTo hasDb sr (some k) n RF bs st := by
          simp [targetsLoop, hcap, hemp]
        rw [e]
        exact ih st hv1 hv2
      | false =>
        rcases sourcesLoop_bound hasDb sr k M st0len n b RF (relTo b) hM
            (dedup (((relTo b).filter
              (fun r => r.source != n)).map (fun r => r.source))) st hv1 hv2
          with ⟨s1, s2⟩
        cases hS : sourcesLoop hasDb sr (some k) n b RF (relTo b)
            (dedup (((relTo b).filter
              (fun r => r.source != n)).map (fun r => r.source))) st with
        | ok st1 =>
          have e : targetsLoop relTo hasDb sr (some k) n RF (b :: bs) st
              = targetsLoop relTo hasDb sr (some k) n RF bs st1 := by
            simp [targetsLoop, hcap, hemp, hS]
          rw [e]
          rcases s2 st1 hS with ⟨hv1', hv2'⟩
          exact ih st1 hv1' hv2'
        | early st1 =>
          have e : targetsLoop relTo hasDb sr (some k) n RF (b :: bs) st
              = LoopRes.early st1 := by
            simp [targetsLoop, hcap, hemp, hS]
          rw [e]
          rw [hS] at s1
          refine ⟨?_, fun out hout => LoopRes.noConfusion hout⟩
          simpa [LoopRes.state] using s1
        | exn st1 =>
          have e : targetsLoop relTo hasDb sr (some k) n RF (b :: bs) st
              = LoopRes.exn st1 := by
            simp [targetsLoop, hcap, hemp, hS]
          rw [e]
          rw [hS] at s1
          refine ⟨?_, fun out hout => LoopRes.noConfusion hout⟩
          simpa [LoopRes.state] using s1

/-- C1 (amended): with a configured per-node cap k of at least one, a seed
node contributes at most k - 1 + M triangles, where M bounds the number of
the seed's outgoing relations sharing any single target.  For M at most 1
(no duplicated targets) this is the original bound k; the counterexample
shows the bound k alone fails when targets repeat. -/
theorem per_node_cap_general_bound (env : Env) (st0 : FinderState)
    (nm : String) (k M : Nat) (v : List Triangle) (st' : FinderState)
    (hcap : env.cap = some k) (hk : 1 ≤ k)
    (hM : ∀ c, (env.relFrom nm).countP (fun r => r.target == c) ≤ M)
    (h : find_triangles env st0 (PyVal.dict (some nm)) = FTRes.returns v st') :
    st'.triangles.length ≤ st0.triangles.length + (k - 1 + M) := by
  rw [find_triangles, ftCore] at h
  by_cases h1 : nm = ""
  · rw [if_pos h1] at h
    cases h
    omega
  · rw [if_neg h1] at h
    cases h2 : (env.hasDb && is_node_processed st0.store nm) with
    | true =>
      rw [if_pos h2] at h
      cases h
      omega
    | false =>
      rw [if_neg (by simp [h2])] at h
      by_cases h3 : nm ∈ st0.processedNodes
      · rw [if_pos h3] at h
        cases h
        omega
      · rw [if_neg h3] at h
        cases h4 : (env.hasDb && env.inProgressRaises nm) with
        | true =>
          rw [if_pos h4] at h
          exact FTRes.noConfusion h
        | false =>
          rw [if_neg (by simp [h4])] at h
          cases h5 : (env.relFrom nm).isEmpty with
          | true =>
            rw [if_pos h5] at h
            cases h
            rw [markStart_triangles]
            omega
          | false =>
            rw [if_neg (by simp [h5])] at h
            rw [hcap] at h
            rcases targetsLoop_bound env.relTo env.hasDb env.saveRaises k M
                st0.triangles.length nm (env.relFrom nm) hM
                (dedup ((env.relFrom nm).map (fun r => r.target)))
                ⟨(markStart env.hasDb st0 nm).triangles, 0,
                  (markStart env.hasDb st0 nm).relationStats,
                  (markStart env.hasDb st0 nm).store⟩
                (by simp [markStart_triangles]) (by simp)
              with ⟨hb, _⟩
            cases hT : targetsLoop env.relTo env.hasDb env.saveRaises (some k)
                nm (env.relFrom nm)
                (dedup ((env.relFrom nm).map (fun r => r.target)))
                ⟨(markStart env.hasDb st0 nm).triangles, 0,
                  (markStart env.hasDb st0 nm).relationStats,
                  (markStart env.hasDb st0 nm).store⟩ with
            | exn b =>
              rw [hT] at h hb
              simp only [LoopRes.state] at hb
              simp only [] at h
              cases h
              simpa [restoreState] using hb
            | early b =>
              rw [hT] at h hb
              simp only [LoopRes.state] at hb
              simp only [] at h
              cases h
              simpa [restoreState] using hb
            | ok b =>
              rw [hT] at h hb
              simp only [LoopRes.state] at hb
              simp only [] at h
              cases h6 : (env.hasDb && env.processedRaises nm) with
              | true =>
                rw [if_pos h6] at h
                exact FTRes.noConfusion h
              | false =>
                rw [if_neg (by simp [h6])] at h
                cases h
                rw [finishState_triangles]
                simpa [restoreState] using hb

/-- Witness for C1 (amended): in the shared-target run with cap 1 the bound
1 - 1 + 2 = 2 is met (and is tight: two triangles were produced). -/
theorem per_node_cap_general_bound_witness :
    stShared.triangles.length ≤ emptyState.triangles.length + (1 - 1 + 2) :=
  per_node_cap_general_bound envCap1 emptyState "a" 1 2
    [triShared1, triShared2] stShared rfl (le_refl 1)
    (by
      intro c
      by_cases hb : c = "b"
      · subst hb; decide
      · by_cases hcc : c = "c"
        · subst hcc; decide
        · have hb' : ¬(("b" : String) = c) := fun hx => hb hx.symm
          have hc' : ¬(("c" : String) = c) := fun hx => hcc hx.symm
          have h0 : (envCap1.relFrom "a").countP
              (fun r => r.target == c) = 0 := by
            simp only [envCap1, pureEnv, rfShared, if_pos rfl,
              List.countP_cons, List.countP_nil]
            simp [beq_iff_eq, hb', hc']
          rw [h0]
          exact Nat.zero_le 2)
    rfl
